import Mathlib

/-!
Verification development for the `qre` pattern-matching library.

The Python sources are shallowly embedded as Lean definitions:

* `src/registered_types.py` — the type registry (`registerType`, `typeCleanup`,
  the default registrations);
* `src/qre/__init__.py` — the compiler pipeline (`escapeSpecials`, the four
  wildcard substitution passes, `fieldRepl`, `groupSub`, `createRegex`), the
  result extraction (`grouplist`, `createResult`), the `Matcher` /
  `MultiMatcher` front ends and the module-level free functions.

The underlying regular-expression engine (Python's `re` module) is an external
collaborator of the repository; it is modelled by a small abstract syntax tree
`RE`, a backtracking evaluator `mrun` and a text-level reader `parseRe`
covering the regex dialect that the compiler emits.  Captured values flow
through `Value`; converter functions are identified by their registered tag.
-/

namespace Qre

/-- A converted capture value.  `vStr` is a plain string capture, `vConv tag raw`
is the symbolic result of applying the converter registered under `tag` to the
raw capture `raw`. -/
inductive Value where
  | vStr (s : String)
  | vConv (tag : String) (raw : String)
  deriving DecidableEq, Repr

/-- Application of a registered converter, identified by its tag, to a raw
captured string.  The default converter of `register_type` is `str`, which is
the identity on the captured text. -/
def applyConv (tag : String) (s : String) : Value :=
  if tag = "str" then .vStr s else .vConv tag s

/-- Python `dict` write: overwrite the value in place when the key is present,
append a new binding otherwise. -/
def dictSet {α β : Type} [DecidableEq α] : List (α × β) → α → β → List (α × β)
  | [], k, v => [(k, v)]
  | (a, w) :: d, k, v =>
    if a = k then (k, v) :: d else (a, w) :: dictSet d k v

/-- Python `dict.update`: fold the writes of `e`, in order, into `d`. -/
def dictUpdate {α β : Type} [DecidableEq α] (d e : List (α × β)) :
    List (α × β) :=
  e.foldl (fun acc p => dictSet acc p.1 p.2) d

/-- Substring test on character lists (the `in` / `re.search`-for-a-literal
behaviour used to state what an error message contains). -/
def containsSub (needle hay : List Char) : Bool :=
  hay.tails.any (fun t => needle.isPrefixOf t)

/-- `",".join(names)` on a list of strings, as characters. -/
def joinComma : List String → List Char
  | [] => []
  | [n] => n.data
  | n :: rest => n.data ++ ',' :: joinComma rest

/- ------------------------------------------------------------------ -/
/- Match data produced by the engine, and the structured result.      -/
/- ------------------------------------------------------------------ -/

/-- Outcome of a successful underlying regex match: the total number of
capturing groups of the compiled regex, the name → group-number table
(`match.re.groupindex`, 1-based) and the captures of the groups that
participated in the match. -/
structure MatchData where
  numGroups : Nat
  groupIndex : List (String × Nat)
  caps : List (Nat × String)
  deriving DecidableEq, Repr

/-- `match.groups()`: one entry per capturing group, `none` when the group did
not participate in the match. -/
def MatchData.groups (md : MatchData) : List (Option String) :=
  (List.range md.numGroups).map (fun i => md.caps.lookup (i + 1))

/-- `match.groupdict()`: named groups with their (possibly absent) captures. -/
def MatchData.groupdict (md : MatchData) : List (String × Option String) :=
  md.groupIndex.map (fun p => (p.1, md.caps.lookup p.2))

/-- The structured result handed back to callers: named mapping, ordered
unnamed list, and the collected underlying matches (`_matches`), whose
non-emptiness is the truthiness of the result. -/
structure MatchResult where
  named : List (String × Value)
  unnamed : List (Option Value)
  mtchs : List MatchData
  deriving DecidableEq, Repr

/-- `MatchResult.__bool__`: a result is truthy iff `_matches` is non-empty. -/
def MatchResult.truthy (r : MatchResult) : Bool :=
  !r.mtchs.isEmpty

/-- The empty, falsy result returned for a no-match. -/
def MatchResult.empty : MatchResult := ⟨[], [], []⟩

/- ------------------------------------------------------------------ -/
/- MultiMatcher result combination (`MultiMatcher._matcher`).         -/
/- ------------------------------------------------------------------ -/

/-- Merge one successful sub-result into the accumulated result:
`result.update(sub_result)`, `result.unnamed.extend(...)`,
`result._matches.extend(...)`. -/
def mergeResult (acc sub : MatchResult) : MatchResult :=
  { named := dictUpdate acc.named sub.named
    unnamed := acc.unnamed ++ sub.unnamed
    mtchs := acc.mtchs ++ sub.mtchs }

/-- The loop body of `MultiMatcher._matcher.collect_results` over the results
of `self.matchers[1:]`. -/
def collectGo (strict : Bool) (acc : MatchResult) : List MatchResult →
    MatchResult
  | [] => acc
  | r :: rs =>
    if r.truthy then collectGo strict (mergeResult acc r) rs
    else if strict then r
    else collectGo strict acc rs

/-- `MultiMatcher._matcher.collect_results`, expressed over the per-matcher
results (`first` from `self.matchers[0]`, `rest` from `self.matchers[1:]`). -/
def collectResults (strict : Bool) (first : MatchResult)
    (rest : List MatchResult) : MatchResult :=
  if !first.truthy && strict then first else collectGo strict first rest

/- ------------------------------------------------------------------ -/
/- Type registry (`src/registered_types.py`).                         -/
/- ------------------------------------------------------------------ -/

/-- A registered type: its (cleaned) sub-pattern and the tag of its converter
(`Conversion`). -/
structure TypeSpec where
  regex : List Char
  converter : String
  deriving DecidableEq, Repr

/-- `TYPE_CLEANUP_REGEX.sub("(?:", regex)`: rewrite every `(` that is not
immediately preceded by a backslash character and not immediately followed by
`?` into `(?:`.  The Boolean tracks whether the previous scanned character was
a backslash (the single-character lookbehind of the substitution). -/
def typeCleanupGo (prevBackslash : Bool) : List Char → List Char
  | [] => []
  | c :: rest =>
    if c = '(' ∧ prevBackslash = false ∧ rest.head? ≠ some '?' then
      '(' :: '?' :: ':' :: typeCleanupGo false rest
    else
      c :: typeCleanupGo (c == '\\') rest

/-- The registration-time cleanup applied to a sub-pattern. -/
def typeCleanup (s : List Char) : List Char := typeCleanupGo false s

/-- `register_type(name, regex, converter)`: overwrite-or-insert the cleaned
sub-pattern under `name`. -/
def registerType (reg : List (String × TypeSpec)) (name : String)
    (regex : String) (converter : String := "str") : List (String × TypeSpec) :=
  dictSet reg name ⟨typeCleanup regex.data, converter⟩

/-- Number of *capturing* parenthesis groups of a regex, per the engine's
escaping semantics: a `(` opens a capturing group iff it is not escaped (the
run of backslashes immediately before it has even length, tracked by the
Boolean) and is not followed by `?`. -/
def capCountGo (escaped : Bool) : List Char → Nat
  | [] => 0
  | c :: rest =>
    if escaped then capCountGo false rest
    else if c = '\\' then capCountGo true rest
    else if c = '(' ∧ rest.head? ≠ some '?' then capCountGo false rest + 1
    else capCountGo false rest

/-- Capturing-group count of a regex text. -/
def capCount (s : List Char) : Nat := capCountGo false s

/-- The registrations performed at import time by `registered_types.py`, in
source order. -/
def defaultRegistry : List (String × TypeSpec) :=
  let r := registerType [] "int" "[+-]?[0-9]+" "int"
  let r := registerType r "float" "[+-]?([0-9]*[.])?[0-9]+" "float"
  let r := registerType r "decimal" "[+-]?([0-9]*[.])?[0-9]+" "decimal.Decimal"
  let r := registerType r "uuid"
    "[a-f0-9]\x7b8\x7d-?[a-f0-9]\x7b4\x7d-?[a-f0-9]\x7b4\x7d-?[a-f0-9]\x7b4\x7d-?[a-f0-9]\x7b12\x7d"
    "uuid.UUID"
  let r := registerType r "date" "\\d\x7b4\x7d-\\d\x7b1,2\x7d-\\d\x7b1,2\x7d"
    "datetime.date.fromisoformat"
  let r := registerType r "datetime"
    "\\d\x7b4\x7d-\\d\x7b1,2\x7d-\\d\x7b1,2\x7d[T ]\\d\x7b1,2\x7d:\\d\x7b1,2\x7d(?::\\d\x7b1,2\x7d(?:[\\.,]\\d\x7b1,6\x7d\\d\x7b0,6\x7d)?)?(Z|[+-]\\d\x7b2\x7d(?::?\\d\x7b2\x7d)?)?"
    "datetime.datetime.fromisoformat"
  let r := registerType r "letters" "[^\\d_\\W]+"
  let r := registerType r "identifier" "\\w+"
  let r := registerType r "open" "((\\[\\[)|\\(|\\\x7b)"
  let r := registerType r "close" "((\\]\\])|\\)|\\\x7d)"
  let r := registerType r "email" "[\\w.+-]+@[a-zA-Z0-9-]+\\.[a-zA-Z0-9-.]+"
  let r := registerType r "url"
    "https?:\\/\\/(www\\.)?[-\\w@:%.\\+~#=]\x7b1,256\x7d\\.[\\w()]\x7b1,6\x7d\\b([-\\w()!@:%\\+.~#?&\\/\\/=]*)"
  let r := registerType r "creditcard"
    "(^4[0-9]\x7b12\x7d(?:[0-9]\x7b3\x7d)?$)|(^(?:5[1-5][0-9]\x7b2\x7d|222[1-9]|22[3-9][0-9]|2[3-6][0-9]\x7b2\x7d|27[01][0-9]|2720)[0-9]\x7b12\x7d$)|(3[47][0-9]\x7b13\x7d)|(^3(?:0[0-5]|[68][0-9])[0-9]\x7b11\x7d$)|(^6(?:011|5[0-9]\x7b2\x7d)[0-9]\x7b12\x7d$)|(^(?:2131|1800|35\\d\x7b3\x7d)\\d\x7b11\x7d$)"
  let r := registerType r "ipv4"
    "(25[0-5]|2[0-4][0-9]|[01]?[0-9][0-9]?)(\\.(25[0-5]|2[0-4][0-9]|[01]?[0-9][0-9]?))\x7b3\x7d"
  let r := registerType r "ipv6"
    "(([0-9a-fA-F]\x7b1,4\x7d:)\x7b7,7\x7d[0-9a-fA-F]\x7b1,4\x7d|([0-9a-fA-F]\x7b1,4\x7d:)\x7b1,7\x7d:|([0-9a-fA-F]\x7b1,4\x7d:)\x7b1,6\x7d:[0-9a-fA-F]\x7b1,4\x7d|([0-9a-fA-F]\x7b1,4\x7d:)\x7b1,5\x7d(:[0-9a-fA-F]\x7b1,4\x7d)\x7b1,2\x7d|([0-9a-fA-F]\x7b1,4\x7d:)\x7b1,4\x7d(:[0-9a-fA-F]\x7b1,4\x7d)\x7b1,3\x7d|([0-9a-fA-F]\x7b1,4\x7d:)\x7b1,3\x7d(:[0-9a-fA-F]\x7b1,4\x7d)\x7b1,4\x7d|([0-9a-fA-F]\x7b1,4\x7d:)\x7b1,2\x7d(:[0-9a-fA-F]\x7b1,4\x7d)\x7b1,5\x7d|[0-9a-fA-F]\x7b1,4\x7d:((:[0-9a-fA-F]\x7b1,4\x7d)\x7b1,6\x7d)|:((:[0-9a-fA-F]\x7b1,4\x7d)\x7b1,7\x7d|:)|fe80:(:[0-9a-fA-F]\x7b0,4\x7d)\x7b0,4\x7d%[0-9a-zA-Z]\x7b1,\x7d|::(ffff(:0\x7b1,4\x7d)\x7b0,1\x7d:)\x7b0,1\x7d((25[0-5]|(2[0-4]|1\x7b0,1\x7d[0-9])\x7b0,1\x7d[0-9])\\.)\x7b3,3\x7d(25[0-5]|(2[0-4]|1\x7b0,1\x7d[0-9])\x7b0,1\x7d[0-9])|([0-9a-fA-F]\x7b1,4\x7d:)\x7b1,4\x7d:((25[0-5]|(2[0-4]|1\x7b0,1\x7d[0-9])\x7b0,1\x7d[0-9])\\.)\x7b3,3\x7d(25[0-5]|(2[0-4]|1\x7b0,1\x7d[0-9])\x7b0,1\x7d[0-9]))"
  r

/- ------------------------------------------------------------------ -/
/- Escaper (`SPECIAL_CHARS` and `str.translate`).                     -/
/- ------------------------------------------------------------------ -/

/-- The character set of `SPECIAL_CHARS` (the stdlib specials minus the DSL's
own `*+?[]`). -/
def isSpecialChar (c : Char) : Bool :=
  c ∈ ['(', ')', '\x7b', '\x7d', '-', '^', '$', '\\', '.', '&', '~', '#',
       ' ', '\t', '\n', '\r', '\x0b', '\x0c']

/-- `pattern.translate(SPECIAL_CHARS)`: escape each special character with a
preceding backslash, pass every other character through. -/
def escapeSpecials (s : List Char) : List Char :=
  s.flatMap (fun c => if isSpecialChar c then ['\\', c] else [c])

/- ------------------------------------------------------------------ -/
/- Wildcard Translator: the four `re.sub` pass pairs.                 -/
/- ------------------------------------------------------------------ -/

/-- One `re.sub(fr"(?<!\[)\{wildcard}", actual, s)` pass: replace every
occurrence of `w` whose preceding character in the scanned string is not `[`
by `rep`.  `afterLB` tracks whether the previously scanned character was `[`
(the lookbehind; `false` at the start of the string). -/
def subNE (w : Char) (rep : List Char) (afterLB : Bool) : List Char → List Char
  | [] => []
  | c :: rest =>
    if c = w ∧ afterLB = false then rep ++ subNE w rep false rest
    else c :: subNE w rep (c == '[') rest

/-- One `re.sub(fr"\[\{wildcard}]", fr"\{wildcard}", s)` pass: replace every
occurrence of the three-character escape `[w]` (leftmost, non-overlapping) by
the escaped literal `\w`. -/
def subE (w : Char) : List Char → List Char
  | [] => []
  | [a] => [a]
  | [a, b] => [a, b]
  | a :: c :: d :: rest' =>
    if a = '[' ∧ c = w ∧ d = ']' then '\\' :: w :: subE w rest'
    else a :: subE w (c :: d :: rest')

/-- The wildcard table of `Matcher._create_regex`, in source order. -/
def wildcardTable : List (Char × List Char) :=
  [('*', ['.', '*']), ('+', ['.']), ('?', ['.', '?']), ('|', ['|'])]

/-- The Wildcard Translator stage: for each wildcard, in order, run the
not-escaped substitution and then the escaped-form substitution. -/
def applyWildcards (s : List Char) : List Char :=
  wildcardTable.foldl (fun acc p => subE p.1 (subNE p.1 p.2 false acc)) s

/- ------------------------------------------------------------------ -/
/- Group Compiler (`Matcher._field_repl` and the group-scan `re.sub`). -/
/- ------------------------------------------------------------------ -/

/-- Keys of the `Matcher.converters` dict: unnamed ordinals (`int` keys) or
group names (`str` keys). -/
inductive ConvKey where
  | idx (n : Nat)
  | name (s : String)
  deriving DecidableEq, Repr

/-- Compilation state threaded through the group scan: the next unnamed
ordinal (`_unnamed_group_index`) and the converter plan (`converters`). -/
structure CompState where
  unnamedIdx : Nat
  converters : List (ConvKey × String)
  deriving DecidableEq, Repr

/-- `group_string.replace("\ ", "")`: drop every escaped space. -/
def removeEscSpace : List Char → List Char
  | [] => []
  | [a] => [a]
  | a :: b :: rest =>
    if a = '\\' ∧ b = ' ' then removeEscSpace rest
    else a :: removeEscSpace (b :: rest)

/-- A word character of the `\w` class, on the ASCII range exercised by the
library (letters, digits, underscore). -/
def wordChar (c : Char) : Bool := c.isAlphanum || c = '_'

/-- Leftmost search: try an anchored attempt at every suffix, left to right
(the behaviour of `re.search`). -/
def searchFirst {α : Type} (f : List Char → Option α) (l : List Char) :
    Option α :=
  l.tails.findSome? f

/-- Anchored attempt for `\[:(\d+)]`. -/
def atUnnamedWidth : List Char → Option (List Char)
  | '[' :: ':' :: rest =>
    let p := rest.span (·.isDigit)
    if p.1 ≠ [] ∧ p.2.head? = some ']' then some p.1 else none
  | _ => none

/-- Anchored attempt for `\[:(\w+)]`. -/
def atUnnamedType : List Char → Option (List Char)
  | '[' :: ':' :: rest =>
    let p := rest.span wordChar
    if p.1 ≠ [] ∧ p.2.head? = some ']' then some p.1 else none
  | _ => none

/-- Anchored attempt for `\[(\w+)]`. -/
def atName : List Char → Option (List Char)
  | '[' :: rest =>
    let p := rest.span wordChar
    if p.1 ≠ [] ∧ p.2.head? = some ']' then some p.1 else none
  | _ => none

/-- Anchored attempt for `\[(\w+):(\d+)]`. -/
def atNameWidth : List Char → Option (List Char × List Char)
  | '[' :: rest =>
    let p := rest.span wordChar
    match p.2 with
    | ':' :: rest2 =>
      let q := rest2.span (·.isDigit)
      if p.1 ≠ [] ∧ q.1 ≠ [] ∧ q.2.head? = some ']' then some (p.1, q.1)
      else none
    | _ => none
  | _ => none

/-- Anchored attempt for `\[(\w+):(\w+)]`. -/
def atNameType : List Char → Option (List Char × List Char)
  | '[' :: rest =>
    let p := rest.span wordChar
    match p.2 with
    | ':' :: rest2 =>
      let q := rest2.span wordChar
      if p.1 ≠ [] ∧ q.1 ≠ [] ∧ q.2.head? = some ']' then some (p.1, q.1)
      else none
    | _ => none
  | _ => none

/-- The unknown-type error message of `Matcher._field_repl`:
`f"Unknown type {type_} - known types are: {','.join(registered_types.keys()) or 'None found'}"`. -/
def unknownTypeMsg (t : List Char) (names : List String) : List Char :=
  "Unknown type ".data ++ t ++ " - known types are: ".data ++
    (if joinComma names = [] then "None found".data else joinComma names)

/-- `Matcher._field_repl`: classify one bracketed group specification and
produce its regex fragment, updating the unnamed ordinal and the converter
plan.  The classification attempts run in source order; an unknown type name
is a `ValueError`, and falling through every form is the `TypeError` Python
raises when the replacement function returns `None`. -/
def fieldRepl (reg : List (String × TypeSpec)) (st : CompState)
    (groupString : List Char) : Except String (List Char × CompState) :=
  let gs := removeEscSpace groupString
  if containsSub "[]".data gs then
    .ok ("(.*)".data, { st with unnamedIdx := st.unnamedIdx + 1 })
  else match searchFirst atUnnamedWidth gs with
  | some width =>
    .ok ('(' :: '.' :: '\x7b' :: width ++ "\x7d)".data,
         { st with unnamedIdx := st.unnamedIdx + 1 })
  | none => match searchFirst atUnnamedType gs with
  | some t =>
    match reg.lookup (String.mk t) with
    | some spec =>
      .ok ('(' :: spec.regex ++ [')'],
           { unnamedIdx := st.unnamedIdx + 1
             converters := dictSet st.converters (.idx st.unnamedIdx)
               spec.converter })
    | none => .error (String.mk (unknownTypeMsg t (reg.map (·.1))))
  | none => match searchFirst atName gs with
  | some n => .ok ("(?P<".data ++ n ++ ">.*)".data, st)
  | none => match searchFirst atNameWidth gs with
  | some p =>
    .ok ("(?P<".data ++ p.1 ++ '>' :: '.' :: '\x7b' :: p.2 ++ "\x7d)".data, st)
  | none => match searchFirst atNameType gs with
  | some p =>
    match reg.lookup (String.mk p.2) with
    | some spec =>
      .ok ("(?P<".data ++ p.1 ++ '>' :: spec.regex ++ [')'],
           { st with
             converters := dictSet st.converters (.name (String.mk p.1))
               spec.converter })
    | none => .error (String.mk (unknownTypeMsg p.2 (reg.map (·.1))))
  | none => .error "TypeError: expected str instance, NoneType found"

/-- Split a character list at the first `]`: the characters before it and the
characters after it (the `([^]]*)]` part of the group-scan regex). -/
def splitAtRB : List Char → Option (List Char × List Char)
  | [] => none
  | c :: rest =>
    if c = ']' then some ([], rest)
    else (splitAtRB rest).map (fun p => (c :: p.1, p.2))

/-- The group-scan `re.sub(r"(?<!\[)\[([^]]*)]", self._field_repl, s)`:
find every `[` that is not preceded by `[`, take the run up to the first `]`,
hand the bracketed text to `fieldRepl`, and splice its replacement in.
`afterLB` is the lookbehind state.  The fuel only bounds the recursion (every
step shortens the scanned list, so any fuel of at least its length is
enough). -/
def groupSub (reg : List (String × TypeSpec)) :
    Nat → CompState → Bool → List Char → Except String (List Char × CompState)
  | _, st, _, [] => .ok ([], st)
  | 0, _, _, _ :: _ => .error "fuel exhausted"
  | fuel + 1, st, afterLB, c :: rest =>
    if c = '[' ∧ afterLB = false then
      match splitAtRB rest with
      | some p =>
        match fieldRepl reg st ('[' :: p.1 ++ [']']) with
        | .error e => .error e
        | .ok q =>
          match groupSub reg fuel q.2 false p.2 with
          | .error e => .error e
          | .ok r => .ok (q.1 ++ r.1, r.2)
      | none =>
        match groupSub reg fuel st true rest with
        | .error e => .error e
        | .ok r => .ok ('[' :: r.1, r.2)
    else
      match groupSub reg fuel st (c == '[') rest with
      | .error e => .error e
      | .ok r => .ok (c :: r.1, r.2)

/-- `re.sub(r"\[\[", r"\[", s)`: each remaining `[[` becomes the escaped
literal `\[`. -/
def subLBrack : List Char → List Char
  | [] => []
  | [a] => [a]
  | a :: b :: rest =>
    if a = '[' ∧ b = '[' then '\\' :: '[' :: subLBrack rest
    else a :: subLBrack (b :: rest)

/-- `re.sub(r"]]", r"]", s)`: each remaining `]]` collapses to `]`. -/
def subRBrack : List Char → List Char
  | [] => []
  | [a] => [a]
  | a :: b :: rest =>
    if a = ']' ∧ b = ']' then ']' :: subRBrack rest
    else a :: subRBrack (b :: rest)

/-- `re.sub(" ", " +", s)`: every literal space is followed by a `+`
quantifier (flexible spaces). -/
def flexSub : List Char → List Char
  | [] => []
  | c :: rest =>
    if c = ' ' then ' ' :: '+' :: flexSub rest else c :: flexSub rest

/-- `Matcher._create_regex`: the full compilation pipeline.  Returns the regex
text and the converter plan (the cleared-and-rebuilt `converters` dict). -/
def createRegex (pattern : List Char) (reg : List (String × TypeSpec))
    (flexibleSpaces : Bool) : Except String (List Char × List (ConvKey × String)) :=
  let s := escapeSpecials pattern
  let s := applyWildcards s
  match groupSub reg (s.length + 1) ⟨0, []⟩ false s with
  | .error e => .error e
  | .ok p =>
    let s := subLBrack p.1
    let s := subRBrack s
    let s := if flexibleSpaces then flexSub s else s
    .ok (s, p.2.converters)

/- ------------------------------------------------------------------ -/
/- Matcher state: pattern, lazy compiled form, converters.            -/
/- ------------------------------------------------------------------ -/

/-- The mutable state of a `Matcher`: its pattern text, flags, converter dict
and the lazily computed compiled-regex cache (`_regex`). -/
structure Matcher where
  pattern : List Char
  caseSensitive : Bool
  flexibleSpaces : Bool
  converters : List (ConvKey × String)
  regexCache : Option (List Char)
  deriving DecidableEq, Repr

/-- `Matcher.__init__`: empty converters, empty cache. -/
def mkMatcher (pattern : List Char) (caseSensitive : Bool := true)
    (flexibleSpaces : Bool := true) : Matcher :=
  ⟨pattern, caseSensitive, flexibleSpaces, [], none⟩

/-- The `pattern` setter: store the new text and invalidate the cache (the
converters are left as they are; only a recompile rebuilds them). -/
def Matcher.setPattern (m : Matcher) (p : List Char) : Matcher :=
  { m with pattern := p, regexCache := none }

/-- The `regex` property: return the cache when warm, otherwise run
`_create_regex` (which clears and rebuilds `converters`) and fill the cache. -/
def Matcher.regexGet (m : Matcher) (reg : List (String × TypeSpec)) :
    Except String (List Char × Matcher) :=
  match m.regexCache with
  | some r => .ok (r, m)
  | none =>
    match createRegex m.pattern reg m.flexibleSpaces with
    | .error e => .error e
    | .ok p => .ok (p.1, { m with converters := p.2, regexCache := some p.1 })

/- ------------------------------------------------------------------ -/
/- Model of the external regex engine (the `re` module capability):   -/
/- an AST, a reader for the compiled regex text, and a prioritized    -/
/- backtracking evaluator with capture groups.                        -/
/- ------------------------------------------------------------------ -/

/-- Regex abstract syntax for the dialect the compiler emits: literals,
`.`, concatenation, alternation, greedy star and numbered capture groups
(`r+`, `r?` and `r{n}` are expressed through these). -/
inductive RE where
  | eps
  | lit (c : Char)
  | dot
  | seq (a b : RE)
  | alt (a b : RE)
  | star (r : RE)
  | group (idx : Nat) (r : RE)
  deriving DecidableEq, Repr

/-- `r{n}`: `n` copies of `r` in sequence. -/
def repeatRe (r : RE) : Nat → RE
  | 0 => .eps
  | n + 1 => .seq r (repeatRe r n)

/-- A compiled regex: its AST, the number of capturing groups and the
name → group-number table. -/
structure Compiled where
  re : RE
  numGroups : Nat
  groupIndex : List (String × Nat)
  deriving DecidableEq, Repr

/-- Reader state: the next capturing-group number and the accumulated
name table. -/
structure PSt where
  g : Nat
  names : List (String × Nat)
  deriving DecidableEq, Repr

mutual

/-- Alternation level of the regex reader. -/
def parseAlt (fuel : Nat) (st : PSt) (l : List Char) :
    Option (RE × PSt × List Char) :=
  match fuel with
  | 0 => none
  | fuel + 1 =>
    match parseSeq fuel st l with
    | none => none
    | some (r, st1, rest) =>
      match rest with
      | '|' :: rest' =>
        match parseAlt fuel st1 rest' with
        | some (r2, st2, rest2) => some (.alt r r2, st2, rest2)
        | none => none
      | _ => some (r, st1, rest)

/-- Concatenation level of the regex reader. -/
def parseSeq (fuel : Nat) (st : PSt) (l : List Char) :
    Option (RE × PSt × List Char) :=
  match fuel with
  | 0 => none
  | fuel + 1 =>
    match l with
    | [] => some (.eps, st, [])
    | ')' :: _ => some (.eps, st, l)
    | '|' :: _ => some (.eps, st, l)
    | _ =>
      match parseTerm fuel st l with
      | none => none
      | some (r, st1, rest) =>
        match parseSeq fuel st1 rest with
        | some (r2, st2, rest2) => some (.seq r r2, st2, rest2)
        | none => none

/-- One atom with an optional quantifier. -/
def parseTerm (fuel : Nat) (st : PSt) (l : List Char) :
    Option (RE × PSt × List Char) :=
  match fuel with
  | 0 => none
  | fuel + 1 =>
    match parseAtom fuel st l with
    | none => none
    | some (r, st1, rest) =>
      match rest with
      | '*' :: rest' => some (.star r, st1, rest')
      | '+' :: rest' => some (.seq r (.star r), st1, rest')
      | '?' :: rest' => some (.alt r .eps, st1, rest')
      | '\x7b' :: rest' =>
        let p := rest'.span (·.isDigit)
        if p.1 ≠ [] ∧ p.2.head? = some '\x7d' then
          some (repeatRe r (String.mk p.1).toNat!, st1, p.2.tail)
        else none
      | _ => some (r, st1, rest)

/-- One atom: escaped literal, `.`, a (named / non-capturing / plain) group,
or a plain literal character. -/
def parseAtom (fuel : Nat) (st : PSt) (l : List Char) :
    Option (RE × PSt × List Char) :=
  match fuel with
  | 0 => none
  | fuel + 1 =>
    match l with
    | [] => none
    | '\\' :: c :: rest => some (.lit c, st, rest)
    | '.' :: rest => some (.dot, st, rest)
    | '(' :: '?' :: ':' :: rest =>
      match parseAlt fuel st rest with
      | some (r, st1, ')' :: rest') => some (r, st1, rest')
      | _ => none
    | '(' :: '?' :: 'P' :: '<' :: rest =>
      let p := rest.span (· ≠ '>')
      match p.2 with
      | '>' :: rest2 =>
        let idx := st.g
        match parseAlt fuel
            ⟨st.g + 1, st.names ++ [(String.mk p.1, idx)]⟩ rest2 with
        | some (r, st2, ')' :: rest3) => some (.group idx r, st2, rest3)
        | _ => none
      | _ => none
    | '(' :: rest =>
      let idx := st.g
      match parseAlt fuel { st with g := st.g + 1 } rest with
      | some (r, st2, ')' :: rest3) => some (.group idx r, st2, rest3)
      | _ => none
    | c :: rest =>
      if c ∈ [')', '|', '*', '+', '?', '\x7b', '[', '^', '$'] then none
      else some (.lit c, st, rest)

end

/-- Read a compiled regex text into a `Compiled` form; groups are numbered
left to right in text order, starting from 1. -/
def parseRe (l : List Char) : Option Compiled :=
  match parseAlt (4 * l.length + 8) ⟨1, []⟩ l with
  | some (r, st, []) => some ⟨r, st.g - 1, st.names⟩
  | _ => none

/-- Character comparison, optionally case-insensitive (`re.IGNORECASE`). -/
def charEq (ci : Bool) (a b : Char) : Bool :=
  if ci then a.toLower == b.toLower else a == b

/-- The substring of `s` from position `a` (inclusive) to `b` (exclusive). -/
def sliceStr (s : List Char) (a b : Nat) : String :=
  String.mk ((s.drop a).take (b - a))

/-- Prioritized backtracking evaluation: all ways `r` can match `s` starting
at `pos`, as end positions with group captures, in the engine's preference
order (alternation left first, star greedy/longest first).  The fuel only
bounds the recursion depth (a star unrolling must consume at least one
character, so `stdFuel` below is enough for a complete search). -/
def mrun (ci : Bool) (s : List Char) :
    Nat → RE → Nat → List (Nat × String) → List (Nat × List (Nat × String))
  | 0, _, _, _ => []
  | _ + 1, .eps, pos, caps => [(pos, caps)]
  | _ + 1, .lit c, pos, caps =>
    match s.get? pos with
    | some d => if charEq ci c d then [(pos + 1, caps)] else []
    | none => []
  | _ + 1, .dot, pos, caps =>
    match s.get? pos with
    | some d => if d = '\n' then [] else [(pos + 1, caps)]
    | none => []
  | fuel + 1, .seq a b, pos, caps =>
    (mrun ci s fuel a pos caps).flatMap (fun p => mrun ci s fuel b p.1 p.2)
  | fuel + 1, .alt a b, pos, caps =>
    mrun ci s fuel a pos caps ++ mrun ci s fuel b pos caps
  | fuel + 1, .star r, pos, caps =>
    ((mrun ci s fuel r pos caps).filter (pos < ·.1)).flatMap
      (fun p => mrun ci s fuel (.star r) p.1 p.2) ++ [(pos, caps)]
  | fuel + 1, .group i r, pos, caps =>
    (mrun ci s fuel r pos caps).map
      (fun p => (p.1, dictSet p.2 i (sliceStr s pos p.1)))

/-- Structural size of a regex. -/
def reSize : RE → Nat
  | .eps | .lit _ | .dot => 1
  | .seq a b | .alt a b => reSize a + reSize b + 1
  | .star r | .group _ r => reSize r + 1

/-- Evaluation fuel sufficient for a complete search of `r` on `s`. -/
def stdFuelFor (r : RE) (s : List Char) : Nat :=
  reSize r * (s.length + 2) + 1

/-- `compiled.fullmatch(s)`: the preferred complete match at position 0. -/
def engineFullmatch (c : Compiled) (ci : Bool) (s : List Char) :
    Option MatchData :=
  ((mrun ci s (stdFuelFor c.re s) c.re 0 []).find? (fun p => p.1 = s.length)).map
    (fun p => ⟨c.numGroups, c.groupIndex, p.2⟩)

/-- `re.compile(f"^{regex}").match(s)`: the preferred match anchored at 0. -/
def engineMatchStart (c : Compiled) (ci : Bool) (s : List Char) :
    Option MatchData :=
  (mrun ci s (stdFuelFor c.re s) c.re 0 []).head?.map
    (fun p => ⟨c.numGroups, c.groupIndex, p.2⟩)

/-- `re.compile(f"{regex}$").search(s)`: at the leftmost viable start, the
preferred match ending at the end of the string. -/
def engineMatchEnd (c : Compiled) (ci : Bool) (s : List Char) :
    Option MatchData :=
  (List.range (s.length + 1)).findSome? (fun st =>
    ((mrun ci s (stdFuelFor c.re s) c.re st []).find? (fun p => p.1 = s.length)).map
      (fun p => ⟨c.numGroups, c.groupIndex, p.2⟩))

/-- `compiled.search(s)`: the preferred match at the leftmost viable start. -/
def engineSearch (c : Compiled) (ci : Bool) (s : List Char) :
    Option MatchData :=
  (List.range (s.length + 1)).findSome? (fun st =>
    (mrun ci s (stdFuelFor c.re s) c.re st []).head?.map
      (fun p => ⟨c.numGroups, c.groupIndex, p.2⟩))

/- ------------------------------------------------------------------ -/
/- Result Extractor (`Matcher._grouplist`, `Matcher._create_result`). -/
/- ------------------------------------------------------------------ -/

/-- `Matcher._grouplist`: the values of `match.groups()` at positions that do
not belong to a named group.  (`name is None` never holds for `groupindex`
keys, so the source's guard reduces to the name-membership test kept here.) -/
def grouplist (md : MatchData) : List (Option String) :=
  (md.groups.enum.filter (fun p =>
    ¬ p.1 ∈ ((md.groupIndex.filter
      (fun q => q.1 ∈ md.groupdict.map (·.1))).map (·.2 - 1)))).map (·.2)

/-- The converter loop of `Matcher._create_result`: integer keys update the
unnamed list in place (`raw_value and converter(raw_value)`, so `None` and the
empty capture are passed through unconverted); string keys convert the named
entry, raising `KeyError` when the key is absent. -/
def applyConvLoop : List (ConvKey × String) → List (String × Value) →
    List (Option Value) →
    Except String (List (String × Value) × List (Option Value))
  | [], n, u => .ok (n, u)
  | (.idx k, tag) :: rest, n, u =>
    if k < u.length then
      let raw : Option Value := (u.get? k).getD none
      let newv : Option Value :=
        match raw with
        | none => none
        | some (.vStr s) =>
          if s = "" then some (.vStr "") else some (applyConv tag s)
        | some v => some v
      applyConvLoop rest n (u.set k newv)
    else .error "IndexError: list assignment index out of range"
  | (.name nm, tag) :: rest, n, u =>
    match n.lookup nm with
    | some (.vStr s) => applyConvLoop rest (dictSet n nm (applyConv tag s)) u
    | some v => applyConvLoop rest (dictSet n nm v) u
    | none => .error ("KeyError: " ++ nm)

/-- `Matcher._create_result`: empty falsy result on no-match; otherwise the
participating named captures, the unnamed group list and the converter loop. -/
def createResult (conv : List (ConvKey × String)) :
    Option MatchData → Except String MatchResult
  | none => .ok ⟨[], [], []⟩
  | some md =>
    let named0 : List (String × Value) :=
      md.groupdict.filterMap (fun p => p.2.map (fun v => (p.1, Value.vStr v)))
    let unnamed0 : List (Option Value) := (grouplist md).map (·.map .vStr)
    match applyConvLoop conv named0 unnamed0 with
    | .error e => .error e
    | .ok p => .ok ⟨p.1, p.2, [md]⟩

/- ------------------------------------------------------------------ -/
/- Matcher / MultiMatcher operations and the module-level functions.  -/
/- ------------------------------------------------------------------ -/

/-- The four single-result match modes. -/
inductive Mode where
  | full
  | start
  | atEnd
  | search
  deriving DecidableEq, Repr

/-- Dispatch a mode to the engine invocation it performs. -/
def runEngine : Mode → Compiled → Bool → List Char → Option MatchData
  | .full => engineFullmatch
  | .start => engineMatchStart
  | .atEnd => engineMatchEnd
  | .search => engineSearch

/-- A `Matcher` match operation: compile (lazily) via the `regex` property,
hand the text to the engine, and extract the result with the compile-time
converter plan. -/
def Matcher.run (m : Matcher) (reg : List (String × TypeSpec)) (mode : Mode)
    (s : List Char) : Except String MatchResult :=
  match m.regexGet reg with
  | .error e => .error e
  | .ok (rtext, m') =>
    match parseRe rtext with
    | none => .error "re.error: could not compile"
    | some c => createResult m'.converters (runEngine mode c (!m.caseSensitive) s)

/-- `MultiMatcher`: an ordered list of matchers plus the strictness flag. -/
structure MultiMatcher where
  matchers : List Matcher
  strict : Bool

/-- The loop of `MultiMatcher._matcher.collect_results` over
`self.matchers[1:]`, with matcher errors propagating where Python would
raise them. -/
def MultiMatcher.goRun (reg : List (String × TypeSpec)) (mode : Mode)
    (strict : Bool) (s : List Char) (acc : MatchResult) :
    List Matcher → Except String MatchResult
  | [] => .ok acc
  | m :: ms =>
    match m.run reg mode s with
    | .error e => .error e
    | .ok sub =>
      if sub.truthy then goRun reg mode strict s (mergeResult acc sub) ms
      else if strict then .ok sub
      else goRun reg mode strict s acc ms

/-- `MultiMatcher._matcher.collect_results`: run the mode on `matchers[0]`,
short-circuit a strict failure, then fold in the remaining matchers. -/
def MultiMatcher.run (mm : MultiMatcher) (reg : List (String × TypeSpec))
    (mode : Mode) (s : List Char) : Except String MatchResult :=
  match mm.matchers with
  | [] => .error "IndexError: list index out of range"
  | m0 :: rest =>
    match m0.run reg mode s with
    | .error e => .error e
    | .ok r0 =>
      if !r0.truthy && mm.strict then .ok r0
      else MultiMatcher.goRun reg mode mm.strict s r0 rest

/-- The module-level free function `match(pattern, string, case_sensitive)`:
a throwaway `Matcher` built with the default `flexible_spaces=True` (the
function exposes no way to change it), the ambient registry made explicit. -/
def matchFree (pattern s : List Char) (cs : Bool)
    (reg : List (String × TypeSpec)) : Except String MatchResult :=
  (mkMatcher pattern cs true).run reg .full s

/-- Free `match_start`. -/
def matchStartFree (pattern s : List Char) (cs : Bool)
    (reg : List (String × TypeSpec)) : Except String MatchResult :=
  (mkMatcher pattern cs true).run reg .start s

/-- Free `match_end`. -/
def matchEndFree (pattern s : List Char) (cs : Bool)
    (reg : List (String × TypeSpec)) : Except String MatchResult :=
  (mkMatcher pattern cs true).run reg .atEnd s

/-- Free `search`. -/
def searchFree (pattern s : List Char) (cs : Bool)
    (reg : List (String × TypeSpec)) : Except String MatchResult :=
  (mkMatcher pattern cs true).run reg .search s

/-- The possible returns of the top-level `qre(*patterns, ...)` constructor.
`valueError` is an **ordinary return value** (the source says
`return ValueError(...)`, not `raise`), which is why the function's type is
not error-monadic. -/
inductive QreReturn where
  | valueError (msg : String)
  | single (m : Matcher)
  | multi (mm : MultiMatcher)

/-- `qre(*patterns, case_sensitive=..., flexible_spaces=..., strict=...)`. -/
def qreFn (patterns : List (List Char)) (cs : Bool := true)
    (fs : Bool := true) (strict : Bool := false) : QreReturn :=
  match patterns with
  | [] => .valueError "Must provide at least one pattern"
  | [p] => .single (mkMatcher p cs fs)
  | ps => .multi ⟨ps.map (fun p => mkMatcher p cs fs), strict⟩

/- ------------------------------------------------------------------ -/
/- Additional definitions used to state the claims.                   -/
/- ------------------------------------------------------------------ -/

/-- Lexicographic string order (via `Ord String`), used to state what a
"sorted" list of type names would be. -/
def strLeB (a b : String) : Bool := !(compare a b == .gt)

/-- Insertion into a sorted list of strings. -/
def insertStr (x : String) : List String → List String
  | [] => [x]
  | y :: rest => if strLeB x y then x :: y :: rest else y :: insertStr x rest

/-- Insertion sort of strings, used to express the claim's "sorted" list. -/
def sortStrs : List String → List String
  | [] => []
  | x :: rest => insertStr x (sortStrs rest)

/-- The first engine match at or after `pos`: start, end and captures. -/
def engineFindFrom (c : Compiled) (ci : Bool) (s : List Char) (pos : Nat) :
    Option (Nat × Nat × List (Nat × String)) :=
  ((List.range (s.length + 1 - pos)).map (· + pos)).findSome? (fun st =>
    (mrun ci s (stdFuelFor c.re s) c.re st []).head?.map (fun p => (st, p.1, p.2)))

/-- The loop of `re.finditer`: repeatedly take the next match and resume at
its end (one past it for an empty match).  The fuel bounds the loop; the scan
position strictly increases, so `s.length + 2` iterations always suffice. -/
def finditerGo (c : Compiled) (ci : Bool) (s : List Char) :
    Nat → Nat → List MatchData
  | 0, _ => []
  | fuel + 1, pos =>
    if pos > s.length then []
    else
      match engineFindFrom c ci s pos with
      | none => []
      | some (st, en, caps) =>
        ⟨c.numGroups, c.groupIndex, caps⟩ ::
          finditerGo c ci s fuel (if en = st then en + 1 else en)

/-- `compiled.finditer(s)`: all non-overlapping matches, left to right. -/
def engineFinditer (c : Compiled) (ci : Bool) (s : List Char) :
    List MatchData :=
  finditerGo c ci s (s.length + 2) 0

/-- `Matcher.search_all`: one extracted result per engine match. -/
def Matcher.searchAll (m : Matcher) (reg : List (String × TypeSpec))
    (s : List Char) : Except String (List MatchResult) :=
  match m.regexGet reg with
  | .error e => .error e
  | .ok (rtext, m') =>
    match parseRe rtext with
    | none => .error "re.error: could not compile"
    | some c =>
      (engineFinditer c (!m.caseSensitive) s).mapM
        (fun md => createResult m'.converters (some md))

/-- Free `search_all`: also a throwaway `Matcher` with the default
`flexible_spaces=True`. -/
def searchAllFree (pattern s : List Char) (cs : Bool)
    (reg : List (String × TypeSpec)) : Except String (List MatchResult) :=
  (mkMatcher pattern cs true).searchAll reg s

/-- One character of the single-pass wildcard-translation contract: an
operator not preceded by `[` becomes its regex equivalent, everything else
passes through (`b` records whether the previous character was `[`). -/
def mgChar (os : List (Char × List Char)) (b : Bool) (a : Char) : List Char :=
  if a = '[' then ['[']
  else
    match os.lookup a with
    | some rep => if b then [a] else rep
    | none => [a]

/-- The Wildcard Translator contract of the claim, as one left-to-right pass
over the pattern: every bracket-escaped form `[w]` becomes the literal
(regex-escaped) symbol `\w`, and every bare operator not immediately preceded
by `[` becomes its regex equivalent. -/
def multiGo (os : List (Char × List Char)) : Bool → List Char → List Char
  | _, [] => []
  | b, [a] => mgChar os b a
  | b, [a, c] => mgChar os b a ++ mgChar os (a == '[') c
  | b, a :: c :: d :: rest' =>
    if a = '[' ∧ (os.lookup c).isSome ∧ d = ']' then
      '\\' :: c :: multiGo os false rest'
    else mgChar os b a ++ multiGo os (a == '[') (c :: d :: rest')

/-- The claim-level specification of the whole wildcard stage: the single
pass over all four operators. -/
def wildcardSpec (s : List Char) : List Char := multiGo wildcardTable false s

/- ------------------------------------------------------------------ -/
/- Helper lemmas.                                                     -/
/- ------------------------------------------------------------------ -/

theorem containsSub_of_parts (needle a b : List Char) :
    containsSub needle (a ++ needle ++ b) = true := by
  unfold containsSub
  rw [List.any_eq_true]
  refine ⟨needle ++ b, ?_, ?_⟩
  · rw [List.mem_tails, List.append_assoc]
    exact List.suffix_append a (needle ++ b)
  · rw [List.isPrefixOf_iff_prefix]
    exact needle.prefix_append b

theorem truthy_mergeResult (a b : MatchResult) :
    (mergeResult a b).truthy = (a.truthy || b.truthy) := by
  simp only [mergeResult, MatchResult.truthy]
  cases a.mtchs <;> simp

theorem collectGo_false_truthy (rs : List MatchResult) :
    ∀ acc, (collectGo false acc rs).truthy = (acc.truthy || rs.any (·.truthy)) := by
  induction rs with
  | nil => intro acc; simp [collectGo]
  | cons r rs ih =>
    intro acc
    by_cases hr : r.truthy = true
    · simp [collectGo, hr, ih, truthy_mergeResult]
    · rw [Bool.not_eq_true] at hr
      simp [collectGo, hr, ih]

theorem collectGo_strict_stop (r : MatchResult) (rs2 : List MatchResult)
    (hr : r.truthy = false) :
    ∀ (rs1 : List MatchResult) (acc : MatchResult),
      (∀ x ∈ rs1, x.truthy = true) →
      collectGo true acc (rs1 ++ r :: rs2) = r := by
  intro rs1
  induction rs1 with
  | nil => intro acc _; simp [collectGo, hr]
  | cons a rs ih =>
    intro acc h
    have ha : a.truthy = true := h a (by simp)
    simp only [List.cons_append, collectGo, ha, if_pos]
    exact ih _ (fun x hx => h x (by simp [hx]))

theorem collectGo_all_truthy (rs : List MatchResult) :
    ∀ acc, (∀ x ∈ rs, x.truthy = true) →
      collectGo true acc rs = rs.foldl mergeResult acc := by
  induction rs with
  | nil => intro acc _; simp [collectGo]
  | cons r rs ih =>
    intro acc h
    have hr : r.truthy = true := h r (by simp)
    simp only [collectGo, hr, if_pos, List.foldl_cons]
    exact ih _ (fun x hx => h x (by simp [hx]))

theorem foldl_merge_unnamed (rs : List MatchResult) :
    ∀ acc, (rs.foldl mergeResult acc).unnamed =
      acc.unnamed ++ (rs.map (·.unnamed)).flatten := by
  induction rs with
  | nil => intro acc; simp
  | cons r rs ih => intro acc; simp [ih, mergeResult]

theorem foldl_merge_named (rs : List MatchResult) :
    ∀ acc, (rs.foldl mergeResult acc).named =
      rs.foldl (fun n r => dictUpdate n r.named) acc.named := by
  induction rs with
  | nil => intro acc; simp
  | cons r rs ih => intro acc; simp [ih, mergeResult]

theorem lookup_cons {α β : Type} [DecidableEq α] (a : α) (w : β)
    (d : List (α × β)) (k : α) :
    ((a, w) :: d).lookup k = if k = a then some w else d.lookup k := by
  by_cases h : k = a
  · have hb : (k == a) = true := by simp [h]
    simp [List.lookup, hb, h]
  · have hb : (k == a) = false := by simp [h]
    simp [List.lookup, hb, h]

theorem lookup_dictSet {α β : Type} [DecidableEq α] :
    ∀ (d : List (α × β)) (k : α) (v : β) (k' : α),
      (dictSet d k v).lookup k' = if k' = k then some v else d.lookup k'
  | [], k, v, k' => by rw [dictSet, lookup_cons]
  | (a, w) :: d, k, v, k' => by
    rw [dictSet]
    by_cases hak : a = k
    · rw [if_pos hak]; subst hak
      by_cases h : k' = a <;> simp [lookup_cons, h]
    · rw [if_neg hak, lookup_cons, lookup_cons, lookup_dictSet d k v k']
      by_cases h1 : k' = a
      · simp [h1, hak]
      · simp [h1]

theorem lookup_eq_none_of_not_mem {α β : Type} [DecidableEq α] :
    ∀ (d : List (α × β)) (k : α), k ∉ d.map Prod.fst → d.lookup k = none
  | [], _, _ => rfl
  | (a, w) :: d, k, h => by
    have hka : ¬ k = a := fun hh => h (by simp [hh])
    rw [lookup_cons, if_neg hka]
    exact lookup_eq_none_of_not_mem d k (fun hh => h (by simp [hh]))

theorem lookup_dictUpdate {α β : Type} [DecidableEq α] :
    ∀ (b a : List (α × β)) (k : α), (b.map Prod.fst).Nodup →
      (dictUpdate a b).lookup k = (b.lookup k).orElse (fun _ => a.lookup k)
  | [], a, k, _ => rfl
  | (kb, vb) :: b, a, k, h => by
    have hstep : dictUpdate a ((kb, vb) :: b) = dictUpdate (dictSet a kb vb) b :=
      rfl
    rw [hstep]
    simp only [List.map_cons, List.nodup_cons] at h
    rw [lookup_dictUpdate b (dictSet a kb vb) k h.2, lookup_dictSet,
      lookup_cons]
    by_cases hk : k = kb
    · subst hk
      have hnone : b.lookup k = none := lookup_eq_none_of_not_mem b k h.1
      simp [hnone, Option.orElse]
    · simp [hk]

/- ------------------------------------------------------------------ -/
/- C1.                                                                -/
/- ------------------------------------------------------------------ -/

/-- C1 (counterexample): for the non-strict `MultiMatcher` on patterns
`["a", "b"]` and input `"b"`, the first matcher fails yet the combined result
is truthy — a later matcher's success does resurrect an overall-false result,
contradicting the claim that the combined truthiness equals `Matcher[0]`'s
success. -/
theorem qre_c1_counterexample :
    MultiMatcher.run ⟨[mkMatcher "a".data, mkMatcher "b".data], false⟩
        defaultRegistry Mode.full "b".data = .ok ⟨[], [], [⟨0, [], []⟩]⟩ ∧
    (MatchResult.mk [] [] [⟨0, [], []⟩]).truthy = true ∧
    (mkMatcher "a".data).run defaultRegistry Mode.full "b".data =
      .ok ⟨[], [], []⟩ ∧
    (MatchResult.mk [] [] []).truthy = false :=
  ⟨by rfl, by rfl, by rfl, by rfl⟩

/-- C1 (amended): with `strict = false`, the truthiness of the combined
result equals "some matcher succeeded" — the first matcher's success is
sufficient but not necessary, because each later successful sub-result's
`_matches` are appended to the accumulated result. -/
theorem qre_c1_amended (first : MatchResult) (rest : List MatchResult) :
    (collectResults false first rest).truthy =
      (first.truthy || rest.any (·.truthy)) := by
  simp [collectResults, collectGo_false_truthy]

/- ------------------------------------------------------------------ -/
/- C4.                                                                -/
/- ------------------------------------------------------------------ -/

/-- C4: with `strict = true`: a failing `Matcher[0]` is returned immediately;
a failing later matcher is returned immediately, independently of every
matcher after it; when all succeed the results fold by `mergeResult`, whose
unnamed lists concatenate in matcher order and whose named mappings fold by
`dict.update`, where later matchers' keys overwrite earlier ones on
collision. -/
theorem qre_c4 :
    (∀ (first : MatchResult) (rest : List MatchResult),
        first.truthy = false → collectResults true first rest = first) ∧
    (∀ (first r : MatchResult) (rs1 rs2 : List MatchResult),
        first.truthy = true → (∀ x ∈ rs1, x.truthy = true) →
        r.truthy = false →
        collectResults true first (rs1 ++ r :: rs2) = r) ∧
    (∀ (first : MatchResult) (rest : List MatchResult),
        first.truthy = true → (∀ x ∈ rest, x.truthy = true) →
        collectResults true first rest = rest.foldl mergeResult first ∧
        (collectResults true first rest).unnamed =
          first.unnamed ++ (rest.map (·.unnamed)).flatten ∧
        (collectResults true first rest).named =
          rest.foldl (fun n r => dictUpdate n r.named) first.named) ∧
    (∀ (a b : List (String × Value)) (k : String),
        (b.map Prod.fst).Nodup →
        (dictUpdate a b).lookup k = (b.lookup k).orElse (fun _ => a.lookup k)) := by
  refine ⟨?_, ?_, ?_, ?_⟩
  · intro first rest h
    simp [collectResults, h]
  · intro first r rs1 rs2 h1 h2 hr
    simp only [collectResults, h1, Bool.not_true, Bool.false_and,
      Bool.false_eq_true, if_false]
    exact collectGo_strict_stop r rs2 hr rs1 first h2
  · intro first rest h1 h2
    have hc : collectResults true first rest = rest.foldl mergeResult first := by
      simp only [collectResults, h1, Bool.not_true, Bool.false_and,
        Bool.false_eq_true, if_false]
      exact collectGo_all_truthy rest first h2
    exact ⟨hc, by rw [hc]; exact foldl_merge_unnamed rest first,
      by rw [hc]; exact foldl_merge_named rest first⟩
  · intro a b k h
    exact lookup_dictUpdate b a k h

/-- C4 (witness): the four parts of `qre_c4` applied at concrete results. -/
theorem qre_c4_witness :
    collectResults true ⟨[], [], []⟩ [⟨[], [], [⟨0, [], []⟩]⟩] = ⟨[], [], []⟩ ∧
    collectResults true ⟨[("a", .vStr "1")], [], [⟨0, [], []⟩]⟩
        ([⟨[], [some (.vStr "u")], [⟨0, [], []⟩]⟩] ++ ⟨[], [], []⟩ ::
          [⟨[("z", .vStr "9")], [], [⟨0, [], []⟩]⟩]) = ⟨[], [], []⟩ ∧
    collectResults true ⟨[("a", .vStr "1")], [some (.vStr "u")], [⟨0, [], []⟩]⟩
        [⟨[("a", .vStr "2")], [none], [⟨0, [], []⟩]⟩] =
      List.foldl mergeResult
        ⟨[("a", .vStr "1")], [some (.vStr "u")], [⟨0, [], []⟩]⟩
        [⟨[("a", .vStr "2")], [none], [⟨0, [], []⟩]⟩] ∧
    (dictUpdate [("a", Value.vStr "1")] [("a", Value.vStr "2")]).lookup "a" =
      ([("a", Value.vStr "2")].lookup "a").orElse
        (fun _ => [("a", Value.vStr "1")].lookup "a") :=
  ⟨qre_c4.1 _ _ (by decide),
   qre_c4.2.1 _ _ _ _ (by decide) (by decide) (by decide),
   (qre_c4.2.2.1 _ _ (by decide) (by decide)).1,
   qre_c4.2.2.2 [("a", .vStr "1")] [("a", .vStr "2")] "a" (by decide)⟩

/- ------------------------------------------------------------------ -/
/- C6.                                                                -/
/- ------------------------------------------------------------------ -/

/-- C6: for every matcher whose pattern compiled (both the text pipeline and
the engine compile succeed), every mode and every input on which the engine
reports no match, the operation returns the empty falsy `MatchResult` — an
`ok` value, never an error. -/
theorem qre_c6 (m : Matcher) (reg : List (String × TypeSpec)) (mode : Mode)
    (s rt : List Char) (m' : Matcher) (c : Compiled)
    (h1 : m.regexGet reg = .ok (rt, m'))
    (h2 : parseRe rt = some c)
    (h3 : runEngine mode c (!m.caseSensitive) s = none) :
    m.run reg mode s = .ok MatchResult.empty ∧
    MatchResult.empty.truthy = false ∧
    MatchResult.empty.named = [] ∧ MatchResult.empty.unnamed = [] := by
  refine ⟨?_, rfl, rfl, rfl⟩
  simp only [Matcher.run, h1, h2, h3]
  rfl

/-- C6 (witness): the pattern `"a"` against `"b"`, in all four modes. -/
theorem qre_c6_witness :
    (mkMatcher "a".data).run defaultRegistry Mode.full "b".data =
      .ok MatchResult.empty ∧
    (mkMatcher "a".data).run defaultRegistry Mode.start "b".data =
      .ok MatchResult.empty ∧
    (mkMatcher "a".data).run defaultRegistry Mode.atEnd "b".data =
      .ok MatchResult.empty ∧
    (mkMatcher "a".data).run defaultRegistry Mode.search "b".data =
      .ok MatchResult.empty :=
  ⟨(qre_c6 (mkMatcher "a".data) defaultRegistry Mode.full "b".data "a".data
      ⟨"a".data, true, true, [], some "a".data⟩ ⟨.seq (.lit 'a') .eps, 0, []⟩
      (by rfl) (by rfl) (by rfl)).1,
   (qre_c6 (mkMatcher "a".data) defaultRegistry Mode.start "b".data "a".data
      ⟨"a".data, true, true, [], some "a".data⟩ ⟨.seq (.lit 'a') .eps, 0, []⟩
      (by rfl) (by rfl) (by rfl)).1,
   (qre_c6 (mkMatcher "a".data) defaultRegistry Mode.atEnd "b".data "a".data
      ⟨"a".data, true, true, [], some "a".data⟩ ⟨.seq (.lit 'a') .eps, 0, []⟩
      (by rfl) (by rfl) (by rfl)).1,
   (qre_c6 (mkMatcher "a".data) defaultRegistry Mode.search "b".data "a".data
      ⟨"a".data, true, true, [], some "a".data⟩ ⟨.seq (.lit 'a') .eps, 0, []⟩
      (by rfl) (by rfl) (by rfl)).1⟩

/- ------------------------------------------------------------------ -/
/- C10.                                                               -/
/- ------------------------------------------------------------------ -/

/-- C10: `qre()` with zero patterns *returns* the `ValueError` as an ordinary
value (the `QreReturn.valueError` constructor of the non-error-monadic return
type), for every flag combination. -/
theorem qre_c10 : ∀ (cs fs strict : Bool),
    qreFn [] cs fs strict =
      QreReturn.valueError "Must provide at least one pattern" :=
  fun _ _ _ => rfl

/- ------------------------------------------------------------------ -/
/- C2.                                                                -/
/- ------------------------------------------------------------------ -/

theorem containsSub_nil (hay : List Char) : containsSub [] hay = true := by
  unfold containsSub
  rw [List.any_eq_true]
  exact ⟨hay, by simp [List.mem_tails], by simp [List.isPrefixOf]⟩

theorem length_filter_mem :
    ∀ (l : List Nat), l.Nodup → ∀ (ign : List Nat), ign.Nodup →
      (∀ i ∈ ign, i ∈ l) →
      (l.filter (fun i => decide (i ∈ ign))).length = ign.length
  | [], _, ign, _, hsub => by
    have : ign = [] :=
      List.eq_nil_iff_forall_not_mem.mpr
        (fun i hi => absurd (hsub i hi) (List.not_mem_nil i))
    simp [this]
  | a :: l, hl, ign, hnd, hsub => by
    rw [List.nodup_cons] at hl
    by_cases ha : a ∈ ign
    · have hda : decide (a ∈ ign) = true := by simp [ha]
      rw [List.filter_cons, hda]
      simp only [if_pos]
      have hcongr : l.filter (fun i => decide (i ∈ ign)) =
          l.filter (fun i => decide (i ∈ ign.erase a)) := by
        apply List.filter_congr
        intro i hi
        have hia : i ≠ a := fun hh => hl.1 (hh ▸ hi)
        simp [hnd.mem_erase_iff, hia]
      rw [List.length_cons, hcongr,
        length_filter_mem l hl.2 (ign.erase a) (hnd.erase a)
          (fun i hi => by
            have hia := (hnd.mem_erase_iff).mp hi
            rcases List.mem_cons.mp (hsub i hia.2) with h | h
            · exact absurd h hia.1
            · exact h)]
      exact List.length_erase_add_one ha
    · have hda : decide (a ∈ ign) = false := by simp [ha]
      rw [List.filter_cons, hda]
      simp only [Bool.false_eq_true, if_false]
      exact length_filter_mem l hl.2 ign hnd
        (fun i hi => by
          rcases List.mem_cons.mp (hsub i hi) with h | h
          · exact absurd (h ▸ hi) ha
          · exact h)

theorem length_filter_enum_fst (l : List (Option String)) (q : Nat → Bool) :
    (l.enum.filter (fun p => q p.1)).length =
      ((List.range l.length).filter q).length := by
  have h1 : (l.enum.filter (fun p => q p.1)).length =
      ((l.enum.filter (fun p => q p.1)).map Prod.fst).length := by
    rw [List.length_map]
  rw [h1]
  have h2 : (l.enum.filter (fun p => q p.1)).map Prod.fst =
      (l.enum.map Prod.fst).filter q := (List.map_filter Prod.fst l.enum).symm
  rw [h2, List.enum_map_fst]

theorem length_filter_not_mem (n : Nat) (ign : List Nat) (hnd : ign.Nodup)
    (hlt : ∀ i ∈ ign, i < n) :
    ((List.range n).filter (fun i => decide (¬ i ∈ ign))).length =
      n - ign.length := by
  have hmem : ((List.range n).filter (fun i => decide (i ∈ ign))).length =
      ign.length :=
    length_filter_mem (List.range n) (List.nodup_range n) ign hnd
      (fun i hi => List.mem_range.mpr (hlt i hi))
  have heq : (fun i => decide (¬ i ∈ ign)) =
      (fun i => !(decide (i ∈ ign))) := by
    funext i; simp [decide_not]
  have hsplit := List.length_eq_length_filter_add
    (l := List.range n) (fun i => decide (i ∈ ign))
  rw [heq]
  rw [List.length_range] at hsplit
  omega

theorem grouplist_length (md : MatchData)
    (hnd : (md.groupIndex.map (·.2)).Nodup)
    (hb : ∀ p ∈ md.groupIndex, 1 ≤ p.2 ∧ p.2 ≤ md.numGroups) :
    (grouplist md).length = md.numGroups - md.groupIndex.length := by
  have hgd : md.groupdict.map (·.1) = md.groupIndex.map (·.1) := by
    simp [MatchData.groupdict, List.map_map, Function.comp]
  unfold grouplist
  rw [hgd]
  have hfull : (md.groupIndex.filter
      (fun p => decide (p.1 ∈ md.groupIndex.map (·.1)))) = md.groupIndex := by
    apply List.filter_eq_self.mpr
    intro p hp
    simp only [decide_eq_true_eq]
    exact List.mem_map_of_mem _ hp
  rw [hfull]
  rw [List.length_map]
  have hglen : md.groups.length = md.numGroups := by
    simp [MatchData.groups]
  rw [length_filter_enum_fst md.groups
    (fun i => decide (¬ i ∈ (md.groupIndex.map (fun p => p.2 - 1)))), hglen]
  have hmap : md.groupIndex.map (fun p => p.2 - 1) =
      (md.groupIndex.map (·.2)).map (fun x => x - 1) := by
    rw [List.map_map]; rfl
  have hnd1 : (md.groupIndex.map (fun p => p.2 - 1)).Nodup := by
    rw [hmap]
    apply List.Nodup.map_on ?_ hnd
    intro x hx y hy hxy
    have hx1 : 1 ≤ x := by
      rcases List.mem_map.mp hx with ⟨p, hp, hpx⟩
      exact hpx ▸ (hb p hp).1
    have hy1 : 1 ≤ y := by
      rcases List.mem_map.mp hy with ⟨p, hp, hpy⟩
      exact hpy ▸ (hb p hp).1
    omega
  have hlt : ∀ i ∈ md.groupIndex.map (fun p => p.2 - 1), i < md.numGroups := by
    intro i hi
    rcases List.mem_map.mp hi with ⟨p, hp, hpi⟩
    have := hb p hp
    omega
  rw [length_filter_not_mem md.numGroups _ hnd1 hlt, List.length_map]

theorem applyConvLoop_unnamed_length :
    ∀ (conv : List (ConvKey × String)) (n : List (String × Value))
      (u : List (Option Value)) (n' : List (String × Value))
      (u' : List (Option Value)),
      applyConvLoop conv n u = .ok (n', u') → u'.length = u.length
  | [], n, u, n', u', h => by
    simp only [applyConvLoop] at h
    injection h with h
    injection h with h1 h2
    rw [← h2]
  | (.idx k, tag) :: rest, n, u, n', u', h => by
    simp only [applyConvLoop] at h
    by_cases hk : k < u.length
    · rw [if_pos hk] at h
      have := applyConvLoop_unnamed_length rest n _ n' u' h
      rw [this, List.length_set]
    · rw [if_neg hk] at h
      exact absurd h (by simp)
  | (.name nm, tag) :: rest, n, u, n', u', h => by
    simp only [applyConvLoop] at h
    cases hl : n.lookup nm with
    | none => rw [hl] at h; exact absurd h (by simp)
    | some v =>
      rw [hl] at h
      cases v with
      | vStr s => exact applyConvLoop_unnamed_length rest _ u n' u' h
      | vConv t r => exact applyConvLoop_unnamed_length rest _ u n' u' h

/-- C2 (counterexample): `match("a[]|b[]", "bx")` succeeds with one
participating unnamed group, yet its unnamed list has **two** entries — the
non-participating group on the losing side of the alternation appears as a
`None` placeholder, so the length equals the total number of unnamed groups,
not the participating count claimed. -/
theorem qre_c2_counterexample :
    matchFree "a[]|b[]".data "bx".data true defaultRegistry =
      .ok ⟨[], [none, some (.vStr "x")], [⟨2, [], [(2, "x")]⟩]⟩ ∧
    (MatchResult.mk [] [none, some (.vStr "x")]
      [⟨2, [], [(2, "x")]⟩]).truthy = true ∧
    (MatchResult.mk [] [none, some (.vStr "x")]
      [⟨2, [], [(2, "x")]⟩]).unnamed.length = 2 ∧
    ((MatchResult.mk [] [none, some (.vStr "x")]
      [⟨2, [], [(2, "x")]⟩]).unnamed.filter (·.isSome)).length = 1 :=
  ⟨by rfl, by rfl, by rfl, by rfl⟩

/-- C2 (amended): on a successful match the unnamed list contains one entry
per unnamed capture group of the compiled regex — `None` placeholders
included for groups that did not participate — so its length is the total
number of groups minus the named ones, and the converter loop preserves it. -/
theorem qre_c2_amended (md : MatchData) (conv : List (ConvKey × String))
    (r : MatchResult)
    (hnd : (md.groupIndex.map (·.2)).Nodup)
    (hb : ∀ p ∈ md.groupIndex, 1 ≤ p.2 ∧ p.2 ≤ md.numGroups)
    (hok : createResult conv (some md) = .ok r) :
    r.unnamed.length = md.numGroups - md.groupIndex.length ∧
    r.unnamed.length = (grouplist md).length := by
  have hlen : r.unnamed.length = (grouplist md).length := by
    simp only [createResult] at hok
    cases ha : applyConvLoop conv
        (md.groupdict.filterMap (fun p => p.2.map (fun v => (p.1, Value.vStr v))))
        ((grouplist md).map (·.map .vStr)) with
    | error e => rw [ha] at hok; exact absurd hok (by simp)
    | ok p =>
      rw [ha] at hok
      injection hok with hok
      rw [← hok]
      have := applyConvLoop_unnamed_length _ _ _ _ _ ha
      simp only [this, List.length_map]
  exact ⟨hlen.trans (grouplist_length md hnd hb), hlen⟩

/-- C2 (witness): the amended statement at a two-group match with one named
group and one non-participating unnamed group. -/
theorem qre_c2_witness :
    (MatchResult.mk [("a", .vStr "y")] [none]
        [⟨2, [("a", 1)], [(1, "y")]⟩]).unnamed.length = 2 - 1 ∧
    (MatchResult.mk [("a", .vStr "y")] [none]
        [⟨2, [("a", 1)], [(1, "y")]⟩]).unnamed.length =
      (grouplist ⟨2, [("a", 1)], [(1, "y")]⟩).length :=
  qre_c2_amended ⟨2, [("a", 1)], [(1, "y")]⟩ []
    ⟨[("a", .vStr "y")], [none], [⟨2, [("a", 1)], [(1, "y")]⟩]⟩
    (by decide) (by decide) (by rfl)

/- ------------------------------------------------------------------ -/
/- C3.                                                                -/
/- ------------------------------------------------------------------ -/

/-- C3 (counterexample): with the default registry, the unknown-type message
for `bogus` joins the registered names in **registration** order, and the
sorted joined list is not contained in it; the compile failure carries
exactly that message. -/
theorem qre_c3_counterexample :
    createRegex "[x:bogus]".data defaultRegistry true =
      .error (String.mk
        (unknownTypeMsg "bogus".data (defaultRegistry.map (·.1)))) ∧
    containsSub (joinComma (sortStrs (defaultRegistry.map (·.1))))
      (unknownTypeMsg "bogus".data (defaultRegistry.map (·.1))) = false :=
  ⟨by rfl, by rfl⟩

/-- C3 (amended): compilation of an unknown type name fails with a message
that contains the offending name and the comma-joined list of registered
names in registration order (with the `None found` marker when the registry
is empty). -/
theorem qre_c3_amended :
    (∀ (t : List Char) (names : List String),
        containsSub t (unknownTypeMsg t names) = true) ∧
    (∀ (t : List Char) (names : List String),
        containsSub (joinComma names) (unknownTypeMsg t names) = true) ∧
    (∀ t : List Char,
        containsSub "None found".data (unknownTypeMsg t []) = true) ∧
    createRegex "[x:bogus]".data defaultRegistry true =
      .error (String.mk
        (unknownTypeMsg "bogus".data (defaultRegistry.map (·.1)))) := by
  refine ⟨?_, ?_, ?_, by rfl⟩
  · intro t names
    unfold unknownTypeMsg
    have := containsSub_of_parts t "Unknown type ".data
      (" - known types are: ".data ++
        if joinComma names = [] then "None found".data else joinComma names)
    simpa [List.append_assoc] using this
  · intro t names
    by_cases h : joinComma names = []
    · rw [h]
      exact containsSub_nil _
    · unfold unknownTypeMsg
      rw [if_neg h]
      have := containsSub_of_parts (joinComma names)
        ("Unknown type ".data ++ t ++ " - known types are: ".data) []
      simpa [List.append_assoc] using this
  · intro t
    unfold unknownTypeMsg
    have h0 : (if joinComma ([] : List String) = [] then "None found".data
        else joinComma []) = "None found".data := by rfl
    rw [h0]
    have := containsSub_of_parts "None found".data
      ("Unknown type ".data ++ t ++ " - known types are: ".data) []
    simpa [List.append_assoc] using this

/- ------------------------------------------------------------------ -/
/- C7.                                                                -/
/- ------------------------------------------------------------------ -/

/-- C7 (code bug evidence): registering the sub-pattern `\\(x)` stores it
unchanged — the `(` is immediately preceded by a backslash character (itself
escaped, i.e. a literal backslash), so the cleanup skips it and the stored
pattern keeps one **capturing** group, contrary to the claim and to the
source comment that all groups are made non-capturing.  For contrast, a plain
group is rewritten and captures nothing. -/
theorem qre_c7_bug :
    registerType [] "t" "\\\\(x)" "str" = [("t", ⟨"\\\\(x)".data, "str"⟩)] ∧
    capCount "\\\\(x)".data = 1 ∧
    typeCleanup "(x)".data = "(?:x)".data ∧
    capCount "(?:x)".data = 0 :=
  ⟨by rfl, by rfl, by rfl, by rfl⟩

/- ------------------------------------------------------------------ -/
/- C8.                                                                -/
/- ------------------------------------------------------------------ -/

/-- C8: recompiling the same pattern text against the same registry is
idempotent — after a successful compile, reassigning the identical pattern
(invalidating the cache, keeping the stale converters) and compiling again
returns the identical regex text and leaves the matcher in the identical
state (in particular the identical converter plan). -/
theorem qre_c8 (m m1 : Matcher) (reg : List (String × TypeSpec))
    (p r1 : List Char)
    (h : (m.setPattern p).regexGet reg = .ok (r1, m1)) :
    (m1.setPattern p).regexGet reg = .ok (r1, m1) := by
  simp only [Matcher.setPattern, Matcher.regexGet] at h
  cases hq : createRegex p reg m.flexibleSpaces with
  | error e => rw [hq] at h; exact absurd h (by simp)
  | ok q =>
    rw [hq] at h
    simp only [Except.ok.injEq, Prod.mk.injEq] at h
    obtain ⟨h1, h2⟩ := h
    subst h1; subst h2
    simp only [Matcher.setPattern, Matcher.regexGet]
    rw [hq]

/-- C8 (witness): compiling `a[b:int]c` twice against the default registry. -/
theorem qre_c8_witness :
    ((mkMatcher "x".data).setPattern "a[b:int]c".data).regexGet
        defaultRegistry =
      .ok ("a(?P<b>[+-]?[0-9]+)c".data,
        ⟨"a[b:int]c".data, true, true, [(.name "b", "int")],
          some "a(?P<b>[+-]?[0-9]+)c".data⟩) ∧
    ((Matcher.mk "a[b:int]c".data true true [(.name "b", "int")]
        (some "a(?P<b>[+-]?[0-9]+)c".data)).setPattern
          "a[b:int]c".data).regexGet defaultRegistry =
      .ok ("a(?P<b>[+-]?[0-9]+)c".data,
        ⟨"a[b:int]c".data, true, true, [(.name "b", "int")],
          some "a(?P<b>[+-]?[0-9]+)c".data⟩) :=
  ⟨by rfl, qre_c8 (mkMatcher "x".data) _ defaultRegistry _ _ (by rfl)⟩

/- ------------------------------------------------------------------ -/
/- C9.                                                                -/
/- ------------------------------------------------------------------ -/

/-- C9: the five module-level free functions build their throwaway `Matcher`
with `flexible_spaces = True` and expose no way to change it; the final
compilation stage rewrites every literal space of the (escaped) text into
`" +"` (one-or-more); and concretely the pattern `a b` matches both `a b`
and `a   b`. -/
theorem qre_c9 :
    (∀ (p s : List Char) (cs : Bool) (reg : List (String × TypeSpec)),
        matchFree p s cs reg = (mkMatcher p cs true).run reg .full s ∧
        matchStartFree p s cs reg = (mkMatcher p cs true).run reg .start s ∧
        matchEndFree p s cs reg = (mkMatcher p cs true).run reg .atEnd s ∧
        searchFree p s cs reg = (mkMatcher p cs true).run reg .search s ∧
        searchAllFree p s cs reg = (mkMatcher p cs true).searchAll reg s) ∧
    (∀ s : List Char, flexSub s =
        s.flatMap (fun c => if c = ' ' then [' ', '+'] else [c])) ∧
    matchFree "a b".data "a   b".data true defaultRegistry =
      .ok ⟨[], [], [⟨0, [], []⟩]⟩ ∧
    matchFree "a b".data "a b".data true defaultRegistry =
      .ok ⟨[], [], [⟨0, [], []⟩]⟩ := by
  refine ⟨fun p s cs reg => ⟨rfl, rfl, rfl, rfl, rfl⟩, ?_, by rfl, by rfl⟩
  intro s
  induction s with
  | nil => rfl
  | cons c rest ih => by_cases hc : c = ' ' <;> simp [flexSub, hc, ih]

/- ------------------------------------------------------------------ -/
/- C5: uniform unfolding lemmas for the scanners.                     -/
/- ------------------------------------------------------------------ -/

theorem mgChar_true (os : List (Char × List Char)) (a : Char) :
    mgChar os true a = [a] := by
  unfold mgChar
  by_cases h : a = '['
  · simp [h]
  · cases os.lookup a <;> simp [h]

theorem mg_nonlb (os : List (Char × List Char)) (b : Bool) (a : Char)
    (rest : List Char) (ha : a ≠ '[') :
    multiGo os b (a :: rest) = mgChar os b a ++ multiGo os false rest := by
  match rest with
  | [] => simp [multiGo]
  | [c] =>
    have hb : (a == '[') = false := by simp [ha]
    simp [multiGo, hb]
  | c :: d :: rest' =>
    have hcond : ¬(a = '[' ∧ (os.lookup c).isSome ∧ d = ']') := fun h => ha h.1
    have hb : (a == '[') = false := by simp [ha]
    simp only [multiGo]
    rw [if_neg hcond, hb]

theorem mg_esc (os : List (Char × List Char)) (b : Bool) (c : Char)
    (t : List Char) (hc : (os.lookup c).isSome) :
    multiGo os b ('[' :: c :: ']' :: t) = '\\' :: c :: multiGo os false t := by
  simp [multiGo, hc]

theorem mg_lb_nil (os : List (Char × List Char)) (b : Bool) :
    multiGo os b ['['] = ['['] := by
  simp [multiGo, mgChar]

theorem mg_lb_one (os : List (Char × List Char)) (b : Bool) (c : Char) :
    multiGo os b ['[', c] = '[' :: multiGo os true [c] := by
  simp [multiGo, mgChar]

theorem mg_lb_two (os : List (Char × List Char)) (b : Bool) (c d : Char)
    (t : List Char) (h : ¬((os.lookup c).isSome ∧ d = ']')) :
    multiGo os b ('[' :: c :: d :: t) = '[' :: multiGo os true (c :: d :: t) := by
  simp only [multiGo]
  rw [if_neg (fun hh => h hh.2 :
    ¬(True ∧ (os.lookup c).isSome = true ∧ d = ']'))]
  have : mgChar os b '[' = ['['] := by simp [mgChar]
  rw [this]
  simp

theorem subE_nonlb (w a : Char) (rest : List Char) (ha : a ≠ '[') :
    subE w (a :: rest) = a :: subE w rest := by
  match rest with
  | [] => rfl
  | [c] => rfl
  | c :: d :: t =>
    have h : ¬(a = '[' ∧ c = w ∧ d = ']') := fun hh => ha hh.1
    simp [subE, h]

theorem subE_esc (w : Char) (t : List Char) :
    subE w ('[' :: w :: ']' :: t) = '\\' :: w :: subE w t := by
  simp [subE]

theorem subE_neg (w a c d : Char) (t : List Char)
    (h : ¬(a = '[' ∧ c = w ∧ d = ']')) :
    subE w (a :: c :: d :: t) = a :: subE w (c :: d :: t) := by
  simp [subE, h]

theorem subE_append_no_lb (w : Char) :
    ∀ (x y : List Char), '[' ∉ x → subE w (x ++ y) = x ++ subE w y
  | [], y, _ => rfl
  | a :: x, y, h => by
    have ha : a ≠ '[' := fun hh => h (by simp [hh])
    rw [List.cons_append, subE_nonlb w a _ ha,
      subE_append_no_lb w x y (fun hh => h (by simp [hh])), List.cons_append]

theorem subNE_rep (w : Char) (rep : List Char) (rest : List Char) :
    subNE w rep false (w :: rest) = rep ++ subNE w rep false rest := by
  simp [subNE]

theorem subNE_keep (w : Char) (rep : List Char) (b : Bool) (c : Char)
    (rest : List Char) (h : ¬(c = w ∧ b = false)) :
    subNE w rep b (c :: rest) = c :: subNE w rep (c == '[') rest := by
  simp [subNE, h]

theorem subNE_cons_shape (w : Char) (rep : List Char) (hrep : rep ≠ [])
    (hrb : ']' ∉ rep) (b : Bool) (d : Char) (t : List Char) (hd : d ≠ ']') :
    ∃ e u, subNE w rep b (d :: t) = e :: u ∧ e ≠ ']' := by
  obtain ⟨e, u', rfl⟩ : ∃ e u', rep = e :: u' := by
    cases rep with
    | nil => exact absurd rfl hrep
    | cons e u' => exact ⟨e, u', rfl⟩
  by_cases h : d = w ∧ b = false
  · rw [subNE, if_pos h]
    exact ⟨e, u' ++ subNE w (e :: u') false t, rfl,
      fun hh => hrb (hh ▸ List.mem_cons_self e u')⟩
  · rw [subNE_keep w (e :: u') b d t h]
    exact ⟨d, _, rfl, hd⟩

theorem lookup_mem {α β : Type} [DecidableEq α] :
    ∀ (d : List (α × β)) (k : α) (v : β), d.lookup k = some v → (k, v) ∈ d
  | [], k, v, h => by simp [List.lookup] at h
  | (a, w) :: d, k, v, h => by
    rw [lookup_cons] at h
    by_cases hk : k = a
    · rw [if_pos hk] at h
      injection h with h
      subst hk; subst h
      exact List.mem_cons_self _ _
    · rw [if_neg hk] at h
      exact List.mem_cons_of_mem _ (lookup_mem d k v h)

theorem lookup_append {α β : Type} [DecidableEq α] :
    ∀ (l1 l2 : List (α × β)) (k : α),
      (l1 ++ l2).lookup k = ((l1.lookup k).orElse (fun _ => l2.lookup k))
  | [], l2, k => rfl
  | (a, w) :: l1, l2, k => by
    rw [List.cons_append, lookup_cons, lookup_cons]
    by_cases hk : k = a
    · simp [hk, Option.orElse]
    · simp [hk, lookup_append l1 l2 k]

theorem subNE_cons_ex (w : Char) (rep : List Char) (hrep : rep ≠ [])
    (b : Bool) (d : Char) (t : List Char) :
    ∃ e u, subNE w rep b (d :: t) = e :: u := by
  obtain ⟨e, u', rfl⟩ : ∃ e u', rep = e :: u' := by
    cases rep with
    | nil => exact absurd rfl hrep
    | cons e u' => exact ⟨e, u', rfl⟩
  by_cases h : d = w ∧ b = false
  · rw [subNE, if_pos h]
    exact ⟨e, u' ++ subNE w (e :: u') false t, rfl⟩
  · rw [subNE_keep w (e :: u') b d t h]
    exact ⟨d, _, rfl⟩

/-- One wildcard pass pair (`subNE` then `subE`) equals the single-pass
translation for that one operator. -/
theorem subE_subNE_eq (w : Char) (rep : List Char)
    (hw1 : w ≠ '[') (hw2 : w ≠ ']')
    (hrep : rep ≠ []) (hrl : '[' ∉ rep) (hrr : ']' ∉ rep) :
    ∀ (n : Nat) (s : List Char), s.length ≤ n → ∀ b,
      subE w (subNE w rep b s) = multiGo [(w, rep)] b s := by
  intro n
  induction n with
  | zero =>
    intro s hs b
    have hnil : s = [] := List.eq_nil_of_length_eq_zero (Nat.le_zero.mp hs)
    subst hnil; rfl
  | succ n ih =>
    intro s hs b
    cases s with
    | nil => rfl
    | cons a rest =>
      have hlen : rest.length ≤ n := by
        simp only [List.length_cons] at hs; omega
      by_cases hal : a = '['
      · subst hal
        have hkeep : ¬('[' = w ∧ b = false) := fun hh => hw1 hh.1.symm
        rw [subNE_keep w rep b '[' rest hkeep]
        have hbt : ('[' == '[') = true := by simp
        rw [hbt]
        cases rest with
        | nil =>
          rw [show subNE w rep true [] = [] from rfl, mg_lb_nil]
          rfl
        | cons c rest2 =>
          cases rest2 with
          | nil =>
            have hone : subNE w rep true [c] = [c] := by
              rw [subNE_keep w rep true c [] (by simp)]
              rfl
            rw [hone, mg_lb_one]
            have : multiGo [(w, rep)] true [c] = [c] := by
              show mgChar [(w, rep)] true c = [c]
              exact mgChar_true _ c
            rw [this]
            rfl
          | cons d rest' =>
            have hlen' : rest'.length ≤ n := by
              simp only [List.length_cons] at hs; omega
            have hlen2 : (c :: d :: rest').length ≤ n := by
              simp only [List.length_cons] at hs ⊢; omega
            by_cases hcw : c = w ∧ d = ']'
            · obtain ⟨rfl, rfl⟩ := hcw
              rw [subNE_keep c rep true c _ (by simp)]
              have hwf : (c == '[') = false := by simp [hw1]
              rw [hwf]
              rw [subNE_keep c rep false ']' rest'
                (fun hh => hw2 hh.1.symm)]
              have hrbf : (']' == '[') = false := by decide
              rw [hrbf]
              rw [subE_esc, ih rest' hlen' false]
              rw [mg_esc [(c, rep)] b c rest' (by rw [lookup_cons]; simp)]
            · rw [subNE_keep w rep true c _ (by simp)]
              by_cases hc : c = w
              · subst hc
                have hwf : (c == '[') = false := by simp [hw1]
                rw [hwf]
                have hd : d ≠ ']' := fun hh => hcw ⟨rfl, hh⟩
                obtain ⟨e, u, heu, hene⟩ :=
                  subNE_cons_shape c rep hrep hrr false d rest' hd
                rw [heu, subE_neg c '[' c e u (fun hh => hene hh.2.2), ← heu]
                have hback : c :: subNE c rep false (d :: rest') =
                    subNE c rep true (c :: d :: rest') := by
                  rw [subNE_keep c rep true c _ (by simp), hwf]
                rw [hback, ih (c :: d :: rest') hlen2 true]
                rw [mg_lb_two [(c, rep)] b c d rest' (fun hh => hd hh.2)]
              · have hkeep2 : ¬(c = w ∧ (c == '[') = false) := by
                  intro hh; exact hc hh.1
                obtain ⟨e, u, heu⟩ :=
                  subNE_cons_ex w rep hrep (c == '[') d rest'
                rw [heu, subE_neg w '[' c e u (fun hh => hc hh.2.1), ← heu]
                have hback : c :: subNE w rep (c == '[') (d :: rest') =
                    subNE w rep true (c :: d :: rest') := by
                  rw [subNE_keep w rep true c _ (by simp)]
                rw [hback, ih (c :: d :: rest') hlen2 true]
                have hnofire : ¬((List.lookup c [(w, rep)]).isSome = true ∧
                    d = ']') := by
                  intro hh
                  rw [lookup_cons, if_neg hc] at hh
                  simp [List.lookup] at hh
                rw [mg_lb_two [(w, rep)] b c d rest' hnofire]
      · by_cases haw : a = w ∧ b = false
        · obtain ⟨rfl, rfl⟩ := haw
          rw [subNE_rep a rep rest]
          rw [subE_append_no_lb a rep _ hrl]
          rw [ih rest hlen false]
          rw [mg_nonlb [(a, rep)] false a rest hal]
          have hmg : mgChar [(a, rep)] false a = rep := by
            unfold mgChar
            rw [if_neg hal, lookup_cons, if_pos rfl]
            rfl
          rw [hmg]
        · rw [subNE_keep w rep b a rest haw]
          have haf : (a == '[') = false := by simp [hal]
          rw [haf]
          rw [subE_nonlb w a _ hal]
          rw [ih rest hlen false]
          rw [mg_nonlb [(w, rep)] b a rest hal]
          have hmg : mgChar [(w, rep)] b a = [a] := by
            unfold mgChar
            rw [if_neg hal]
            by_cases haw2 : a = w
            · subst haw2
              have hb : b = true := by
                cases b
                · exact absurd ⟨rfl, rfl⟩ haw
                · rfl
              rw [hb, lookup_cons, if_pos rfl]
              rfl
            · rw [lookup_cons, if_neg haw2]
              rfl
          rw [hmg]
          rfl

theorem mgChar_none (os : List (Char × List Char)) (b : Bool) (a : Char)
    (hal : a ≠ '[') (h : os.lookup a = none) : mgChar os b a = [a] := by
  unfold mgChar
  rw [if_neg hal, h]

theorem mgChar_some_false (os : List (Char × List Char)) (a : Char)
    (rep' : List Char) (hal : a ≠ '[') (h : os.lookup a = some rep') :
    mgChar os false a = rep' := by
  unfold mgChar
  rw [if_neg hal, h]
  rfl

theorem mg_skip (w : Char) (rep : List Char) :
    ∀ (x : List Char), (∀ a ∈ x, a ≠ '[' ∧ a ≠ w) → x ≠ [] →
      ∀ (y : List Char) (b : Bool),
        multiGo [(w, rep)] b (x ++ y) = x ++ multiGo [(w, rep)] false y
  | [], _, hne, _, _ => absurd rfl hne
  | a :: x, h, _, y, b => by
    have ha := h a (List.mem_cons_self a x)
    rw [List.cons_append, mg_nonlb [(w, rep)] b a _ ha.1]
    have hmg : mgChar [(w, rep)] b a = [a] :=
      mgChar_none _ b a ha.1 (by rw [lookup_cons, if_neg ha.2]; rfl)
    rw [hmg]
    cases x with
    | nil => simp
    | cons a1 x1 =>
      rw [mg_skip w rep (a1 :: x1)
        (fun i hi => h i (List.mem_cons_of_mem a hi)) (by simp) y false]
      simp

theorem mg_cons_shape (os : List (Char × List Char))
    (hos : ∀ p ∈ os, p.2 ≠ [] ∧ ']' ∉ p.2) (b : Bool) (d : Char)
    (t : List Char) (hd : d ≠ ']') :
    ∃ e u, multiGo os b (d :: t) = e :: u ∧ e ≠ ']' := by
  by_cases hdl : d = '['
  · subst hdl
    cases t with
    | nil => exact ⟨'[', [], mg_lb_nil os b, by decide⟩
    | cons c t2 =>
      cases t2 with
      | nil => exact ⟨'[', multiGo os true [c], mg_lb_one os b c, by decide⟩
      | cons d' t' =>
        by_cases hesc : (os.lookup c).isSome ∧ d' = ']'
        · obtain ⟨h1, rfl⟩ := hesc
          exact ⟨'\\', c :: multiGo os false t', mg_esc os b c t' h1, by decide⟩
        · exact ⟨'[', multiGo os true (c :: d' :: t'),
            mg_lb_two os b c d' t' hesc, by decide⟩
  · rw [mg_nonlb os b d t hdl]
    cases hl : os.lookup d with
    | none =>
      rw [mgChar_none os b d hdl hl]
      exact ⟨d, _, rfl, hd⟩
    | some rep' =>
      cases b with
      | true =>
        rw [mgChar_true]
        exact ⟨d, _, rfl, hd⟩
      | false =>
        rw [mgChar_some_false os d rep' hdl hl]
        have hp := hos (d, rep') (lookup_mem os d rep' hl)
        obtain ⟨e, u', rfl⟩ : ∃ e u', rep' = e :: u' := by
          cases rep' with
          | nil => exact absurd rfl hp.1
          | cons e u' => exact ⟨e, u', rfl⟩
        exact ⟨e, u' ++ multiGo os false t, rfl,
          fun hh => hp.2 (hh ▸ List.mem_cons_self _ _)⟩

theorem mg1_lb (w : Char) (rep : List Char) (b : Bool) (X : List Char)
    (h : ∀ e f u, X = e :: f :: u → ¬(e = w ∧ f = ']')) :
    multiGo [(w, rep)] b ('[' :: X) = '[' :: multiGo [(w, rep)] true X := by
  cases X with
  | nil => rw [mg_lb_nil]; rfl
  | cons e X2 =>
    cases X2 with
    | nil => exact mg_lb_one [(w, rep)] b e
    | cons f u =>
      refine mg_lb_two [(w, rep)] b e f u ?_
      intro hh
      have hew : e = w := by
        by_cases hew : e = w
        · exact hew
        · rw [lookup_cons, if_neg hew] at hh
          simp [List.lookup] at hh
      exact h e f u rfl ⟨hew, hh.2⟩

theorem mg_lb_head (os : List (Char × List Char)) (b : Bool) (t : List Char) :
    (∃ u, multiGo os b ('[' :: t) = '[' :: u) ∨
    (∃ c' u', multiGo os b ('[' :: t) = '\\' :: c' :: u') := by
  cases t with
  | nil => exact Or.inl ⟨[], mg_lb_nil os b⟩
  | cons c t2 =>
    cases t2 with
    | nil => exact Or.inl ⟨multiGo os true [c], mg_lb_one os b c⟩
    | cons d' t' =>
      by_cases hesc : (os.lookup c).isSome ∧ d' = ']'
      · obtain ⟨h1, rfl⟩ := hesc
        exact Or.inr ⟨c, multiGo os false t', mg_esc os b c t' h1⟩
      · exact Or.inl ⟨multiGo os true (c :: d' :: t'),
          mg_lb_two os b c d' t' hesc⟩

/-- Fusing one more operator into the single-pass translation: running the
one-operator pass after a multi-operator pass equals the extended
multi-operator pass. -/
theorem mg_fuse (os : List (Char × List Char)) (w : Char) (rep : List Char)
    (hwl : os.lookup w = none) (hw1 : w ≠ '[') (hw3 : w ≠ '\\')
    (hos : ∀ p ∈ os, p.1 ≠ '[' ∧ p.1 ≠ ']' ∧ p.2 ≠ [] ∧
      '[' ∉ p.2 ∧ ']' ∉ p.2 ∧ w ∉ p.2) :
    ∀ (n : Nat) (s : List Char), s.length ≤ n → ∀ b,
      multiGo [(w, rep)] b (multiGo os b s) =
        multiGo (os ++ [(w, rep)]) b s := by
  have hrbos : List.lookup ']' os = none := by
    apply lookup_eq_none_of_not_mem
    intro hmem
    obtain ⟨p, hp, hp1⟩ := List.mem_map.mp hmem
    exact (hos p hp).2.1 hp1
  have happ : ∀ (a : Char), List.lookup a os = none →
      List.lookup a (os ++ [(w, rep)]) = List.lookup a [(w, rep)] := by
    intro a h
    rw [lookup_append, h]
    rfl
  have happ2 : ∀ (a : Char) (r : List Char), List.lookup a os = some r →
      List.lookup a (os ++ [(w, rep)]) = some r := by
    intro a r h
    rw [lookup_append, h]
    rfl
  intro n
  induction n with
  | zero =>
    intro s hs b
    have hnil : s = [] := List.eq_nil_of_length_eq_zero (Nat.le_zero.mp hs)
    subst hnil; rfl
  | succ n ih =>
    intro s hs b
    cases s with
    | nil => rfl
    | cons a rest =>
      have hlen : rest.length ≤ n := by
        simp only [List.length_cons] at hs; omega
      by_cases hal : a = '['
      · subst hal
        cases rest with
        | nil => rw [mg_lb_nil, mg_lb_nil, mg_lb_nil]
        | cons c rest2 =>
          cases rest2 with
          | nil =>
            rw [mg_lb_one, mg_lb_one]
            have h1 : multiGo os true [c] = [c] := by
              show mgChar os true c = [c]
              exact mgChar_true os c
            have h2 : multiGo (os ++ [(w, rep)]) true [c] = [c] := by
              show mgChar (os ++ [(w, rep)]) true c = [c]
              exact mgChar_true _ c
            rw [h1, h2, mg_lb_one]
            have h3 : multiGo [(w, rep)] true [c] = [c] := by
              show mgChar [(w, rep)] true c = [c]
              exact mgChar_true _ c
            rw [h3]
          | cons d rest' =>
            have hlen' : rest'.length ≤ n := by
              simp only [List.length_cons] at hs; omega
            have hlen2 : (c :: d :: rest').length ≤ n := by
              simp only [List.length_cons] at hs ⊢; omega
            by_cases hA : (os.lookup c).isSome ∧ d = ']'
            · obtain ⟨hsome, rfl⟩ := hA
              obtain ⟨repc, hrepc⟩ := Option.isSome_iff_exists.mp hsome
              have hpc := hos (c, repc) (lookup_mem os c repc hrepc)
              have hcneq : c ≠ '[' := hpc.1
              have hcw : c ≠ w := by
                intro hh; rw [hh, hwl] at hrepc; exact Option.noConfusion hrepc
              rw [mg_esc os b c rest' hsome]
              rw [mg_nonlb [(w, rep)] b '\\' _ (by decide)]
              rw [mgChar_none [(w, rep)] b '\\' (by decide)
                (by rw [lookup_cons, if_neg (fun hh => hw3 hh.symm)]; rfl)]
              rw [mg_nonlb [(w, rep)] false c _ hcneq]
              rw [mgChar_none [(w, rep)] false c hcneq
                (by rw [lookup_cons, if_neg hcw]; rfl)]
              rw [ih rest' hlen' false]
              rw [mg_esc (os ++ [(w, rep)]) b c rest'
                (by rw [happ2 c repc hrepc]; rfl)]
              rfl
            · by_cases hB : c = w ∧ d = ']'
              · obtain ⟨rfl, rfl⟩ := hB
                rw [mg_lb_two os b c ']' rest' (by rw [hwl]; simp)]
                rw [mg_nonlb os true c _ hw1, mgChar_true]
                rw [mg_nonlb os false ']' _ (by decide)]
                rw [mgChar_none os false ']' (by decide) hrbos]
                simp only [List.singleton_append]
                rw [mg_esc [(c, rep)] b c _ (by rw [lookup_cons]; simp)]
                rw [ih rest' hlen' false]
                rw [mg_esc (os ++ [(c, rep)]) b c rest'
                  (by rw [happ c hwl, lookup_cons]; simp)]
              · rw [mg_lb_two os b c d rest' hA]
                have hno : ∀ e f u,
                    multiGo os true (c :: d :: rest') = e :: f :: u →
                    ¬(e = w ∧ f = ']') := by
                  by_cases hcl : c = '['
                  · subst hcl
                    intro e f u hX hef
                    rcases mg_lb_head os true (d :: rest') with ⟨u0, hu0⟩ |
                        ⟨c', u', hu'⟩
                    · rw [hu0] at hX
                      injection hX with h1 _
                      exact hw1 (h1 ▸ hef.1).symm
                    · rw [hu'] at hX
                      injection hX with h1 _
                      exact hw3 (h1 ▸ hef.1).symm
                  · rw [mg_nonlb os true c _ hcl, mgChar_true,
                      List.singleton_append]
                    by_cases hcw2 : c = w
                    · subst hcw2
                      have hd : d ≠ ']' := fun hh => hB ⟨rfl, hh⟩
                      obtain ⟨e', u'', he', hene⟩ :=
                        mg_cons_shape os
                          (fun p hp => ⟨(hos p hp).2.2.1,
                            (hos p hp).2.2.2.2.1⟩) false d rest' hd
                      rw [he']
                      intro e f u hX hef
                      injection hX with h1 h2
                      injection h2 with h2 _
                      exact hene (h2 ▸ hef.2)
                    · intro e f u hX hef
                      injection hX with h1 _
                      exact hcw2 (h1 ▸ hef.1)
                rw [mg1_lb w rep b _ hno]
                rw [ih (c :: d :: rest') hlen2 true]
                rw [mg_lb_two (os ++ [(w, rep)]) b c d rest' ?_]
                intro hh
                cases hoc : os.lookup c with
                | some r => exact hA ⟨by rw [hoc]; rfl, hh.2⟩
                | none =>
                  rw [happ c hoc, lookup_cons] at hh
                  by_cases hcw3 : c = w
                  · exact hB ⟨hcw3, hh.2⟩
                  · rw [if_neg hcw3] at hh
                    simp [List.lookup] at hh
      · rw [mg_nonlb os b a rest hal]
        by_cases haw : a = w
        · subst haw
          rw [mgChar_none os b a hw1 hwl, List.singleton_append]
          rw [mg_nonlb [(a, rep)] b a _ hw1]
          rw [ih rest hlen false]
          rw [mg_nonlb (os ++ [(a, rep)]) b a rest hw1]
          have h2 : mgChar (os ++ [(a, rep)]) b a = mgChar [(a, rep)] b a := by
            unfold mgChar
            rw [if_neg hw1, if_neg hw1, happ a hwl]
          rw [h2]
        · cases hl : os.lookup a with
          | none =>
            rw [mgChar_none os b a hal hl, List.singleton_append]
            rw [mg_nonlb [(w, rep)] b a _ hal]
            rw [mgChar_none [(w, rep)] b a hal
              (by rw [lookup_cons, if_neg haw]; rfl)]
            rw [ih rest hlen false]
            rw [mg_nonlb (os ++ [(w, rep)]) b a rest hal]
            rw [mgChar_none (os ++ [(w, rep)]) b a hal
              (by rw [happ a hl, lookup_cons, if_neg haw]; rfl)]
          | some rep' =>
            have hp := hos (a, rep') (lookup_mem os a rep' hl)
            cases b with
            | true =>
              rw [mgChar_true os a, List.singleton_append]
              rw [mg_nonlb [(w, rep)] true a _ hal, mgChar_true,
                List.singleton_append]
              rw [ih rest hlen false]
              rw [mg_nonlb (os ++ [(w, rep)]) true a rest hal, mgChar_true,
                List.singleton_append]
            | false =>
              rw [mgChar_some_false os a rep' hal hl]
              rw [mg_skip w rep rep'
                (fun i hi => ⟨fun hh => hp.2.2.2.1 (hh ▸ hi),
                  fun hh => hp.2.2.2.2.2 (hh ▸ hi)⟩) hp.2.2.1 _ false]
              rw [ih rest hlen false]
              rw [mg_nonlb (os ++ [(w, rep)]) false a rest hal]
              rw [mgChar_some_false (os ++ [(w, rep)]) a rep' hal
                (happ2 a rep' hl)]

/-- C5: the four-pass Wildcard Translator of `_create_regex` equals, on every
input, the single-pass contract of the claim (`wildcardSpec`): every bare
`*`, `+`, `?`, `|` not immediately preceded by `[` becomes `.*`, `.`, `.?`,
`|` respectively, and every `[*]`, `[+]`, `[?]`, `[|]` becomes the escaped
literal symbol.  Consequently `match("real[*]times", "real*times")` succeeds
and `match("real[*]times", "real+times")` is falsy. -/
theorem qre_c5 :
    (∀ s : List Char, applyWildcards s = wildcardSpec s) ∧
    matchFree "real[*]times".data "real*times".data true defaultRegistry =
      .ok ⟨[], [], [⟨0, [], []⟩]⟩ ∧
    matchFree "real[*]times".data "real+times".data true defaultRegistry =
      .ok ⟨[], [], []⟩ := by
  refine ⟨?_, by rfl, by rfl⟩
  intro s
  have h0 : applyWildcards s =
      subE '|' (subNE '|' ['|'] false
        (subE '?' (subNE '?' ['.', '?'] false
          (subE '+' (subNE '+' ['.'] false
            (subE '*' (subNE '*' ['.', '*'] false s))))))) := rfl
  rw [h0]
  rw [subE_subNE_eq '*' ['.', '*'] (by decide) (by decide) (by decide)
    (by decide) (by decide) s.length s le_rfl false]
  rw [subE_subNE_eq '+' ['.'] (by decide) (by decide) (by decide)
    (by decide) (by decide) _ _ le_rfl false]
  rw [subE_subNE_eq '?' ['.', '?'] (by decide) (by decide) (by decide)
    (by decide) (by decide) _ _ le_rfl false]
  rw [subE_subNE_eq '|' ['|'] (by decide) (by decide) (by decide)
    (by decide) (by decide) _ _ le_rfl false]
  rw [mg_fuse [('*', ['.', '*'])] '+' ['.'] (by decide) (by decide)
    (by decide) (by decide) s.length s le_rfl false]
  rw [mg_fuse ([('*', ['.', '*'])] ++ [('+', ['.'])]) '?' ['.', '?']
    (by decide) (by decide) (by decide) (by decide) s.length s le_rfl false]
  rw [mg_fuse (([('*', ['.', '*'])] ++ [('+', ['.'])]) ++ [('?', ['.', '?'])])
    '|' ['|'] (by decide) (by decide) (by decide) (by decide)
    s.length s le_rfl false]
  rfl

end Qre
